import Mathlib

/-!
Verification of the IndoorClimateMonitor segment store.

The development shallowly embeds the two source files of the repository:
`collector/collect-dirigera.py` (sensor sampling, crash-safe segment append,
cycle rotation) and `web/server.py` (windowed query over the segment files).
Python datetimes are embedded as records of natural numbers at second
precision; Python string comparison is embedded as code-point lexicographic
comparison of character lists; fallible Python code is embedded with
`Option`/`Except`.
-/

namespace ICM

/-- A naive UTC date-time at second precision, as the Python `datetime` values
the program manipulates (the program strips microseconds from reading
timestamps; sub-second detail plays no role in any claim). -/
structure DateTime where
  year : Nat
  month : Nat
  day : Nat
  hour : Nat
  minute : Nat
  second : Nat
deriving DecidableEq, Repr

/-- A calendar date, as Python `datetime.date`. -/
structure Date where
  year : Nat
  month : Nat
  day : Nat
deriving DecidableEq, Repr

/-- `datetime.date()`: drop the time-of-day fields. -/
def DateTime.date (d : DateTime) : Date := ⟨d.year, d.month, d.day⟩

/-- Digit-concatenation key of a date-time.  For actual Python datetimes
(fields in their calendar ranges, so month, day, hour, minute, second < 100
and year < 10000) ordering by this key coincides with Python field-by-field
lexicographic datetime comparison. -/
def DateTime.key (d : DateTime) : Nat :=
  ((((d.year * 100 + d.month) * 100 + d.day) * 100 + d.hour) * 100 + d.minute)
      * 100 + d.second

/-- Digit-concatenation key of a date; orders dates as Python `date` order. -/
def Date.key (d : Date) : Nat := (d.year * 100 + d.month) * 100 + d.day

/-- Python `<=` on datetimes (via the digit key, see `DateTime.key`). -/
def dtLe (a b : DateTime) : Bool := decide (a.key ≤ b.key)

/-- Python `<=` on dates (via the digit key). -/
def dLe (a b : Date) : Bool := decide (a.key ≤ b.key)

/-- Gregorian leap-year test. -/
def isLeap (y : Nat) : Bool := (y % 4 == 0 && y % 100 != 0) || y % 400 == 0

/-- Number of days in a month of a given year. -/
def daysInMonth (y m : Nat) : Nat :=
  if m = 2 then (if isLeap y then 29 else 28)
  else if m = 4 ∨ m = 6 ∨ m = 9 ∨ m = 11 then 30
  else 31

/-- The field ranges Python `datetime` enforces (year 1..9999, calendar-valid
month/day, time-of-day in range). -/
def DateTime.Valid (d : DateTime) : Prop :=
  1 ≤ d.year ∧ d.year ≤ 9999 ∧ 1 ≤ d.month ∧ d.month ≤ 12 ∧
    1 ≤ d.day ∧ d.day ≤ daysInMonth d.year d.month ∧
    d.hour ≤ 23 ∧ d.minute ≤ 59 ∧ d.second ≤ 59

instance : DecidablePred DateTime.Valid := fun d => by
  unfold DateTime.Valid; infer_instance

/-- The field ranges Python `date` enforces. -/
def Date.Valid (d : Date) : Prop :=
  1 ≤ d.year ∧ d.year ≤ 9999 ∧ 1 ≤ d.month ∧ d.month ≤ 12 ∧
    1 ≤ d.day ∧ d.day ≤ daysInMonth d.year d.month

instance : DecidablePred Date.Valid := fun d => by
  unfold Date.Valid; infer_instance

/-- Days elapsed since 0000-03-01 of the proleptic Gregorian calendar
(the standard era-based civil-calendar algorithm, valid for year ≥ 1).
Used to embed Python datetime/timedelta arithmetic. -/
def daysFromCivil (y m d : Nat) : Nat :=
  let y2 := if m ≤ 2 then y - 1 else y
  let era := y2 / 400
  let yoe := y2 % 400
  let mp := if 2 < m then m - 3 else m + 9
  let doy := (153 * mp + 2) / 5 + (d - 1)
  let doe := yoe * 365 + yoe / 4 - yoe / 100 + doy
  era * 146097 + doe

/-- Inverse of `daysFromCivil` (same standard algorithm). -/
def civilFromDays (z : Nat) : Date :=
  let era := z / 146097
  let doe := z % 146097
  let yoe := (doe - doe / 1460 + doe / 36524 - doe / 146096) / 365
  let y2 := yoe + era * 400
  let doy := doe - (365 * yoe + yoe / 4 - yoe / 100)
  let mp := (5 * doy + 2) / 153
  let da := doy - (153 * mp + 2) / 5 + 1
  let mo := if mp < 10 then mp + 3 else mp - 9
  ⟨if mo ≤ 2 then y2 + 1 else y2, mo, da⟩

/-- Seconds elapsed since 0000-03-01T00:00:00. -/
def toSecs (d : DateTime) : Nat :=
  daysFromCivil d.year d.month d.day * 86400
    + d.hour * 3600 + d.minute * 60 + d.second

/-- Date-time from a count of seconds since 0000-03-01T00:00:00. -/
def fromSecs (n : Nat) : DateTime :=
  let c := civilFromDays (n / 86400)
  let r := n % 86400
  ⟨c.year, c.month, c.day, r / 3600, r % 3600 / 60, r % 60⟩

/-- Python `dt - timedelta(seconds=k)` (for the in-range dates the server
handles; the embedding truncates below the calendar origin). -/
def subSecs (d : DateTime) (k : Nat) : DateTime := fromSecs (toSecs d - k)

/-- Is the character an ASCII digit? -/
def isDig (c : Char) : Bool := 48 ≤ c.toNat && c.toNat ≤ 57

/-- Numeric value of an ASCII digit character. -/
def dv (c : Char) : Nat := c.toNat - 48

/-- Strict lexicographic comparison of character lists by code point —
Python string `<`. -/
def lexLt : List Char → List Char → Bool
  | [], [] => false
  | [], _ :: _ => true
  | _ :: _, [] => false
  | a :: as, b :: bs => if a < b then true else if b < a then false else lexLt as bs

/-- Python string `<=` (total order used by `sorted` and `list.sort`). -/
def strLe (a b : String) : Bool := ! lexLt b.data a.data

/-- Insert into a sorted list, before any tied element (the incoming element
stands for a later element of the original list in `stableSort`, so walking
past strictly-smaller heads only keeps the sort stable). -/
def insertSorted (le : α → α → Bool) (a : α) : List α → List α
  | [] => [a]
  | b :: bs => if le a b then a :: b :: bs else b :: insertSorted le a bs

/-- Stable ascending sort — the observable behavior of Python `sorted` and
`list.sort` (structural recursion, so concrete instances compute). -/
def stableSort (le : α → α → Bool) : List α → List α
  | [] => []
  | a :: as => insertSorted le a (stableSort le as)

/-- Parse a two-ASCII-digit group. -/
def p2v (a b : Char) : Option Nat :=
  if isDig a && isDig b then some (10 * dv a + dv b) else none

/-- Parse one expected separator character. -/
def pSep (c : Char) (l : List Char) : Option (List Char) :=
  match l with
  | x :: rest => if x = c then some rest else none
  | [] => none

/-- Parse a two-ASCII-digit group at the head of a character list. -/
def pD2 (l : List Char) : Option (Nat × List Char) :=
  match l with
  | a :: b :: rest => (p2v a b).map (fun v => (v, rest))
  | _ => none

/-- Parse one expected separator out of two interchangeable characters —
CPython compiles strptime patterns with IGNORECASE, so the literal letters
`T` and `Z` of the format also match their lowercase forms. -/
def pSep2 (c1 c2 : Char) (l : List Char) : Option (List Char) :=
  match l with
  | x :: rest => if x = c1 ∨ x = c2 then some rest else none
  | [] => none

/-- Greedily parse a one- or two-ASCII-digit run, as the CPython strptime
field patterns for `%m`/`%H`/`%M`/`%S` do: in the fixed separator-delimited
formats the server uses, a two-digit run is either consumed whole by the
field or the overall match fails, and a value the pattern ranges exclude is
observably the same ValueError the out-of-range `datetime` constructor
raises — both embed as a failed parse after range validation. -/
def pD12 (l : List Char) : Option (Nat × List Char) :=
  match l with
  | a :: b :: rest =>
    if isDig a then
      if isDig b then some (10 * dv a + dv b, rest)
      else some (dv a, b :: rest)
    else none
  | [a] => if isDig a then some (dv a, []) else none
  | [] => none

/-- The `%d` field: like the other two-digit fields, plus the
space-padded single-digit alternative of the CPython `%d` pattern. -/
def pDay (l : List Char) : Option (Nat × List Char) :=
  match l with
  | x :: rest =>
    if x = ' ' then
      match rest with
      | a :: rest2 => if isDig a then some (dv a, rest2) else none
      | [] => none
    else pD12 (x :: rest)
  | [] => none

/-- Models `datetime.strptime(s, "%Y-%m-%dT%H:%M:%SZ")` (server, step 4 of
`load_data`): exactly four year digits, one- or two-digit month, day, hour,
minute and second fields (zero padding is not required, as in CPython),
case-insensitive `T`/`Z` separators, nothing trailing, and the field-range
validation of the `datetime` constructor. -/
def parseTs (s : String) : Option DateTime := do
  let (yh, l) ← pD2 s.data
  let (yl, l) ← pD2 l
  let l ← pSep '-' l
  let (mo, l) ← pD12 l
  let l ← pSep '-' l
  let (da, l) ← pDay l
  let l ← pSep2 'T' 't' l
  let (ho, l) ← pD12 l
  let l ← pSep ':' l
  let (mi, l) ← pD12 l
  let l ← pSep ':' l
  let (sec, l) ← pD12 l
  let l ← pSep2 'Z' 'z' l
  match l with
  | [] =>
    let d : DateTime := ⟨100 * yh + yl, mo, da, ho, mi, sec⟩
    if d.Valid then some d else none
  | _ :: _ => none

/-- The month alternatives of the CPython `%m` pattern
`1[0-2]|0[1-9]|[1-9]`, in the order the regex engine tries them: a matching
two-digit form first, then a nonzero single digit. -/
def monthAlts (l : List Char) : List (Nat × List Char) :=
  (match l with
   | a :: b :: rest =>
     if isDig a && isDig b &&
         ((dv a == 1 && decide (dv b ≤ 2)) || (dv a == 0 && decide (1 ≤ dv b))) then
       [(10 * dv a + dv b, rest)]
     else []
   | _ => []) ++
  (match l with
   | a :: rest =>
     if isDig a && decide (1 ≤ dv a) then [(dv a, rest)] else []
   | [] => [])

/-- The day alternatives of the CPython `%d` pattern
`3[01]|[12]\d|0[1-9]|[1-9]| [1-9]`, in regex order: a two-digit form in
01..31, then a nonzero single digit, then a space-padded nonzero digit. -/
def dayAlts (l : List Char) : List (Nat × List Char) :=
  (match l with
   | a :: b :: rest =>
     if isDig a && isDig b &&
         ((dv a == 3 && decide (dv b ≤ 1)) || dv a == 1 || dv a == 2 ||
           (dv a == 0 && decide (1 ≤ dv b))) then
       [(10 * dv a + dv b, rest)]
     else []
   | _ => []) ++
  (match l with
   | a :: rest =>
     if isDig a && decide (1 ≤ dv a) then [(dv a, rest)] else []
   | [] => []) ++
  (match l with
   | x :: a :: rest =>
     if x = ' ' && isDig a && decide (1 ≤ dv a) then [(dv a, rest)] else []
   | _ => [])

/-- Models `datetime.strptime(part, "%Y%m%d").date()` (server, step 2 of
`load_data`).  With no separators between the fields the regex engine
backtracks: after the four year digits, the month and day alternatives are
tried in pattern order and the first combination consuming the whole string
wins (so `2025119` is 2025-11-09 and `2025120` is 2025-01-20, as in
CPython); the fully-matched candidate is then validated by the `date`
constructor, with no further backtracking on a constructor failure. -/
def parseDay (s : String) : Option Date := do
  let (yh, l) ← pD2 s.data
  let (yl, l) ← pD2 l
  match (monthAlts l).flatMap (fun p =>
      (dayAlts p.2).filterMap (fun q =>
        if q.2.isEmpty then some (p.1, q.1) else none)) with
  | [] => none
  | (mo, da) :: _ =>
    let d : Date := ⟨100 * yh + yl, mo, da⟩
    if d.Valid then some d else none

/-- Models `datetime.strptime(s, "%Y-%m-%d")` (server, `get_readings` date
parameter): four year digits, separator-delimited one- or two-digit month
and day (zero padding not required, as in CPython), nothing trailing, then
`date` constructor validation. -/
def parseDateStr (s : String) : Option Date := do
  let (yh, l) ← pD2 s.data
  let (yl, l) ← pD2 l
  let l ← pSep '-' l
  let (mo, l) ← pD12 l
  let l ← pSep '-' l
  let (da, l) ← pDay l
  match l with
  | [] =>
    let d : Date := ⟨100 * yh + yl, mo, da⟩
    if d.Valid then some d else none
  | _ :: _ => none

/-- Two-digit zero-padded decimal rendering (of `n % 100`). -/
def pad2 (n : Nat) : List Char := [Nat.digitChar (n / 10 % 10), Nat.digitChar (n % 10)]

/-- Four-digit zero-padded decimal rendering (of `n % 10000`). -/
def pad4 (n : Nat) : List Char := pad2 (n / 100) ++ pad2 (n % 100)

/-- `datetime.isoformat() + "Z"` at second precision, as the collector writes
the `ts` field in `read_sensor_values`. -/
def formatTs (d : DateTime) : String :=
  ⟨pad4 d.year ++ '-' :: pad2 d.month ++ '-' :: pad2 d.day ++
    'T' :: pad2 d.hour ++ ':' :: pad2 d.minute ++ ':' :: pad2 d.second ++ ['Z']⟩

/-- `strftime("%Y%m%d_%H%M%S")`, the timestamp part of the segment naming
scheme shared by collector and server. -/
def fmtCompact (d : DateTime) : String :=
  ⟨pad4 d.year ++ pad2 d.month ++ pad2 d.day ++
    '_' :: pad2 d.hour ++ pad2 d.minute ++ pad2 d.second⟩

/-- A field value inside a stored record: JSON null, number, or string.
The on-disk record format is flat (`ts`, `temperature_c`, `humidity_rh`,
`battery_percentage`), so field values need no nesting.  JSON numbers are
embedded as rationals; no claim does arithmetic on them. -/
inductive FieldVal where
  | null
  | num (v : Rat)
  | str (s : String)
deriving DecidableEq, Repr

/-- A JSON value appearing as one element of a loaded segment list: a flat
object (a record), or a scalar.  Scalars arise from malformed files — the
server later subscripts each element with `['ts']`, which only objects
support. -/
inductive JVal where
  | null
  | num (v : Rat)
  | str (s : String)
  | obj (fields : List (String × FieldVal))
deriving DecidableEq, Repr

/-- The result of `json.load` on a segment file, as `load_data` consumes it:
`unreadable` when opening or parsing raised, otherwise the parsed document
classified by what `combined_data.extend(day_data)` does with it. -/
inductive FileContent where
  | unreadable
  | jlist (entries : List JVal)
  | jobj (keys : List String)
  | jstr (s : String)
  | jother
deriving DecidableEq, Repr

/-- `dict.get`-style first lookup in an object field list. -/
def lookupField (fields : List (String × FieldVal)) (k : String) : Option FieldVal :=
  (fields.find? (fun kv => kv.1 = k)).map (·.2)

/-- A sensor handle as `read_sensor_values` sees it: each of the three
attribute chains `float(sensor.attributes.X)` either yields a number or
raises somewhere (attribute access or `float` conversion); `none` embeds the
raising case, which the source catches per attribute. -/
structure Sensor where
  temp : Option Rat
  hum : Option Rat
  batt : Option Rat

/-- An optional sampled value as stored: absent becomes JSON null. -/
def optField : Option Rat → FieldVal
  | none => .null
  | some v => .num v

/-- `read_sensor_values(sensor)` of the collector: stamps the current UTC
instant (second precision, ISO-8601 with a trailing Z) and stores each
independently-optional attribute, absent as null.  The wall clock is passed
in as `now` (the source calls `datetime.utcnow().replace(microsecond=0)`). -/
def read_sensor_values (now : DateTime) (sensor : Sensor) : JVal :=
  .obj [("ts", .str (formatTs now)),
        ("temperature_c", optField sensor.temp),
        ("humidity_rh", optField sensor.hum),
        ("battery_percentage", optField sensor.batt)]

/-- What `append_reading` finds when it reads the existing segment file:
no file, a file `json.load` fails on, a parsed list, or a parsed non-list
document (on which the later `payload.append` raises). -/
inductive SegRead where
  | absent
  | corrupt
  | content (entries : List JVal)
  | nonList
deriving Repr

/-- Log events the embedded functions emit, standing for the logger and
print calls of the source. -/
inductive LogEv where
  | readCorrupt
  | skipName (f : String)
  | readError (f : String)
  | addEntry (ts : DateTime)
  | badTs
deriving DecidableEq, Repr

/-- The in-memory payload list `append_reading` builds before writing:
existing parsed contents (corrupt or missing treated as the empty prior
history, with a log record) plus the new reading; a parsed non-list document
makes `payload.append` raise, embedded as `Except.error`. -/
def append_reading (prior : SegRead) (reading : JVal) :
    Except Unit (List JVal × List LogEv) :=
  match prior with
  | .absent => .ok ([reading], [])
  | .corrupt => .ok ([reading], [.readCorrupt])
  | .content es => .ok (es ++ [reading], [])
  | .nonList => .error ()

/-- A filesystem as a map from path to file contents (bytes as a string). -/
def FS : Type := String → Option String

/-- The primitive filesystem steps `atomic_write_json` performs: create an
empty temporary file (`tempfile.mkstemp`), append a chunk of serialized
output to a file (`json.dump` writes incrementally), atomically rename
(`shutil.move`, a same-directory and hence same-filesystem rename). -/
inductive FsOp where
  | create (p : String)
  | writeChunk (p : String) (s : String)
  | rename (src dst : String)

/-- Effect of one primitive step on the filesystem. -/
def applyOp (fs : FS) : FsOp → FS
  | .create p => fun q => if q = p then some "" else fs q
  | .writeChunk p s => fun q => if q = p then some ((fs p).getD "" ++ s) else fs q
  | .rename src dst =>
      fun q => if q = dst then fs src else if q = src then none else fs q

/-- Apply a sequence of steps in order. -/
def applyOps (fs : FS) (ops : List FsOp) : FS := ops.foldl applyOp fs

/-- Concatenation of the chunks streamed into the temporary file. -/
def concatChunks : List String → String
  | [] => ""
  | c :: cs => c ++ concatChunks cs

/-- The exact step sequence of `atomic_write_json(path, data)`: make the
temporary file in the target directory, stream the serialized data into it
(in whatever chunks, `chunks`), then rename it over `path`.  The segment
file at `path` is never written directly. -/
def atomic_write_json (tmp path : String) (chunks : List String) : List FsOp :=
  .create tmp :: chunks.map (.writeChunk tmp) ++ [.rename tmp path]

/-- Serialization of a field value to JSON text.  Byte-exact fidelity to
`json.dump` (indentation, float rendering) is immaterial to every claim;
what matters is that one fixed string stands for the serialized form. -/
def serializeField : FieldVal → String
  | .null => "null"
  | .num v => toString v.num ++ "/" ++ toString v.den
  | .str s => "\"" ++ s ++ "\""

/-- Serialization of one record. -/
def serializeJ : JVal → String
  | .null => "null"
  | .num v => toString v.num ++ "/" ++ toString v.den
  | .str s => "\"" ++ s ++ "\""
  | .obj fields =>
      "\x7b" ++ String.intercalate ", "
        (fields.map (fun kv => "\"" ++ kv.1 ++ "\": " ++ serializeField kv.2)) ++ "\x7d"

/-- Serialization of a whole segment payload. -/
def serializeEntries (es : List JVal) : String :=
  "[" ++ String.intercalate ", " (es.map serializeJ) ++ "]"

/-- Segment file basename of the naming scheme,
`sensor_<YYYYMMDD>_<HHMMSS>.json`. -/
def segBasename (d : DateTime) : String := "sensor_" ++ fmtCompact d ++ ".json"

/-- Segment path as the collector builds `json_path`. -/
def segPath (d : DateTime) : String := "data/" ++ segBasename d

/-- Rotation state of the main loop: cycle start instant and active segment
path. -/
structure LoopState where
  cycle_start : DateTime
  json_path : String
deriving DecidableEq, Repr

/-- The rotation decision of the main loop tick:
`(now - cycle_start).total_seconds() >= seconds_per_cycle`. -/
def should_rotate (now : DateTime) (st : LoopState) (secondsPerCycle : Nat) : Bool :=
  decide ((secondsPerCycle : Int) ≤ (toSecs now : Int) - (toSecs st.cycle_start : Int))

/-- The rotation step of a main-loop tick.  `now` is the instant read at the
top of the tick (the one the decision uses); `nowRot` is the fresh
`datetime.utcnow()` the source reads again when resetting `cycle_start`.
On rotation the closed segment path is emitted for post-processing hand-off
and the new active path is derived from the new `cycle_start`. -/
def rotate_step (now nowRot : DateTime) (st : LoopState) (secondsPerCycle : Nat) :
    LoopState × Option String :=
  if should_rotate now st secondsPerCycle then
    (⟨nowRot, segPath nowRot⟩, some st.json_path)
  else (st, none)

/-- Is the first character list an initial run of the second
(Python `str.startswith`)? -/
def hasPfx : List Char → List Char → Bool
  | [], _ => true
  | _ :: _, [] => false
  | a :: as, b :: bs => a == b && hasPfx as bs

/-- `filename.startswith("sensor_") and filename.endswith(".json")`. -/
def nameMatches (f : String) : Bool :=
  hasPfx "sensor_".data f.data && hasPfx ".json".data.reverse f.data.reverse

/-- Python `s.split("_")`: split at every underscore, keeping empty runs. -/
def splitUnderscore : List Char → List (List Char)
  | [] => [[]]
  | c :: rest =>
    if c = '_' then [] :: splitUnderscore rest
    else
      match splitUnderscore rest with
      | [] => [[c]]
      | g :: gs => (c :: g) :: gs

/-- `filename.split("_")[1]` parsed with `strptime("%Y%m%d").date()`; `none`
embeds both the IndexError (fewer than two components) and the ValueError
(unparseable date part) the source catches together. -/
def fileDay (f : String) : Option Date :=
  match (splitUnderscore f.data).get? 1 with
  | none => none
  | some part => parseDay ⟨part⟩

/-- `(start_dt - timedelta(days=1)).date()` — the backward-padded lower
bound of the candidate-segment window. -/
def searchStartDate (start : DateTime) : Date := (subSecs start 86400).date

/-- The full candidate test of step 2 of `load_data` for one filename. -/
def isCandidate (s e : DateTime) (f : String) : Bool :=
  nameMatches f &&
    match fileDay f with
    | some d => dLe (searchStartDate s) d && dLe d e.date
    | none => false

/-- Step 2 of `load_data`: iterate the directory listing in sorted order and
keep the candidate filenames (a filter over the sorted listing, exactly the
accumulation the source loop performs). -/
def relevantFiles (names : List String) (s e : DateTime) : List String :=
  (stableSort strLe names).filter (isCandidate s e)

/-- The "skipping unrecognized file format" log records of step 2. -/
def skipNameLogs (names : List String) : List LogEv :=
  ((stableSort strLe names).filter
    (fun f => nameMatches f && (fileDay f).isNone)).map .skipName

/-- Contents of a named file of the directory; a listed name is backed by its
content, a vanished name reads as unreadable. -/
def lookupFile (dir : List (String × FileContent)) (f : String) : FileContent :=
  match dir.find? (fun p => p.1 = f) with
  | some p => p.2
  | none => .unreadable

/-- What `combined_data.extend(day_data)` contributes for one loaded file:
a list extends element-wise, a dict extends with its keys, a string with its
characters; a non-iterable raises (caught by the surrounding handler), and
an unreadable file raised before reaching `extend` — both embed as `none`,
which step 3 logs and skips. -/
def extendOf : FileContent → Option (List JVal)
  | .jlist es => some es
  | .jobj ks => some (ks.map .str)
  | .jstr s => some (s.data.map fun c => .str ⟨[c]⟩)
  | .jother => none
  | .unreadable => none

/-- Step 3 of `load_data`: concatenate the loadable candidate contents in
candidate order. -/
def combinedData (dir : List (String × FileContent)) (s e : DateTime) : List JVal :=
  (relevantFiles (dir.map (·.1)) s e).flatMap
    fun f => (extendOf (lookupFile dir f)).getD []

/-- The "Error reading" log records of step 3. -/
def readErrorLogs (dir : List (String × FileContent)) (s e : DateTime) : List LogEv :=
  ((relevantFiles (dir.map (·.1)) s e).filter
    fun f => (extendOf (lookupFile dir f)).isNone).map .readError

/-- The exceptions step 4 of `load_data` does not catch: `entry['ts']` on an
entry without that key raises KeyError; subscripting a non-object entry or
parsing a non-string timestamp raises TypeError.  Only ValueError is caught. -/
inductive PyErr where
  | keyError
  | typeError
deriving DecidableEq, Repr

/-- `datetime.strptime(entry['ts'], "%Y-%m-%dT%H:%M:%SZ")` with the source's
exception behavior: `.ok none` is the caught ValueError (drop and log),
`.error _` an uncaught exception. -/
def entryTs (v : JVal) : Except PyErr (Option DateTime) :=
  match v with
  | .obj fields =>
    match lookupField fields "ts" with
    | none => .error .keyError
    | some (.str s) => .ok (parseTs s)
    | some _ => .error .typeError
  | _ => .error .typeError

/-- Step 4 of `load_data`: keep exactly the entries whose parsed timestamp
lies in the closed window, drop (and log) entries whose string timestamp
fails to parse, and propagate the uncaught exceptions. -/
def tsFilter (s e : DateTime) : List JVal → Except PyErr (List JVal × List LogEv)
  | [] => .ok ([], [])
  | v :: rest =>
    match entryTs v with
    | .error er => .error er
    | .ok none =>
      match tsFilter s e rest with
      | .error er => .error er
      | .ok (o, l) => .ok (o, .badTs :: l)
    | .ok (some dt) =>
      if dtLe s dt && dtLe dt e then
        match tsFilter s e rest with
        | .error er => .error er
        | .ok (o, l) => .ok (v :: o, .addEntry dt :: l)
      else tsFilter s e rest

/-- The sort key of step 5, `lambda x: x['ts']` (every element reaching the
sort is an object with a string `ts`; the default covers the other
constructors only formally). -/
def tsKeyStr (v : JVal) : String :=
  match v with
  | .obj fields =>
    match lookupField fields "ts" with
    | some (.str s) => s
    | _ => ""
  | _ => ""

/-- The comparison `list.sort` applies to the keys of step 5. -/
def entryLe (a b : JVal) : Bool := strLe (tsKeyStr a) (tsKeyStr b)

/-- Step 5 of `load_data`: stable ascending sort by the raw `ts` string. -/
def sortByTs (l : List JVal) : List JVal := stableSort entryLe l

/-- `load_data(start_dt, end_dt)` of the server over a directory listing:
select candidate segments, load and concatenate them, filter by exact
timestamp, sort; paired with the log records it emits.  An uncaught
exception of step 4 aborts the call. -/
def load_data (dir : List (String × FileContent)) (s e : DateTime) :
    Except PyErr (List JVal) × List LogEv :=
  let logs12 := skipNameLogs (dir.map (·.1)) ++ readErrorLogs dir s e
  match tsFilter s e (combinedData dir s e) with
  | .error er => (.error er, logs12)
  | .ok (o, l4) => (.ok (sortByTs o), logs12 ++ l4)

/-- The failure modes of one `/api/get_readings` request: an unparseable
`date` parameter, or an exception escaping `load_data`. -/
inductive ReqErr where
  | badDate
  | tsKeyError
  | tsTypeError
deriving DecidableEq, Repr

/-- The window width in seconds the range-parameter dispatch chooses; every
string outside the enumerated six falls to the final else, 24 hours. -/
def rangeWindow (r : String) : Nat :=
  if r = "6h" then 6 * 3600
  else if r = "12h" then 12 * 3600
  else if r = "24h" then 24 * 3600
  else if r = "3d" then 3 * 86400
  else if r = "7d" then 7 * 86400
  else if r = "1m" then 30 * 86400
  else 24 * 3600

/-- End-time resolution of `get_readings`: no `date` parameter means now;
a `date` equal to the local today means now; any other parseable date means
its 23:59:59; an unparseable date raises. -/
def computeEnd (dateP : Option String) (nowUtc : DateTime) (today : Date) :
    Except ReqErr DateTime :=
  match dateP with
  | none => .ok nowUtc
  | some ds =>
    match parseDateStr ds with
    | none => .error .badDate
    | some d =>
      if d = today then .ok nowUtc
      else .ok ⟨d.year, d.month, d.day, 23, 59, 59⟩

/-- The `/api/get_readings` request handler: resolve the window, delegate to
`load_data`, serialize the result (log records are glue and dropped here). -/
def get_readings (dir : List (String × FileContent)) (rangeP dateP : Option String)
    (nowUtc : DateTime) (today : Date) : Except ReqErr (List JVal) := do
  let endT ← computeEnd dateP nowUtc today
  let startT := subSecs endT (rangeWindow (rangeP.getD "24h"))
  match (load_data dir startT endT).1 with
  | .ok o => .ok o
  | .error .keyError => .error .tsKeyError
  | .error .typeError => .error .tsTypeError

/-- The timestamp a record carries, when its `ts` field is a parseable
string. -/
def tsOf (v : JVal) : Option DateTime :=
  match entryTs v with
  | .ok (some dt) => some dt
  | _ => none

/-- The chronological sort key of a record (zero for the junk shapes the
sort never sees). -/
def keyOf (v : JVal) : Nat :=
  match tsOf v with
  | some dt => dt.key
  | none => 0

/-! ### Sanity anchors -/

example : fromSecs (toSecs ⟨2025, 11, 20, 21, 40, 32⟩) = ⟨2025, 11, 20, 21, 40, 32⟩ := by
  decide

example : subSecs ⟨2025, 3, 1, 0, 30, 0⟩ 86400 = ⟨2025, 2, 28, 0, 30, 0⟩ := by
  decide

example : subSecs ⟨2024, 3, 1, 12, 0, 0⟩ 86400 = ⟨2024, 2, 29, 12, 0, 0⟩ := by
  decide

example : formatTs ⟨2025, 11, 9, 12, 34, 56⟩ = "2025-11-09T12:34:56Z" := by decide

example : parseTs "2025-11-20T21:40:32Z" = some ⟨2025, 11, 20, 21, 40, 32⟩ := by decide

example : parseTs "2025-02-30T00:00:00Z" = none := by decide

example : parseTs "2025-11-20T9:02:00Z" = some ⟨2025, 11, 20, 9, 2, 0⟩ := by decide

example : parseTs "2025-11-20t21:40:32z" = some ⟨2025, 11, 20, 21, 40, 32⟩ := by decide

example : parseDay "2025119" = some ⟨2025, 11, 9⟩ := by decide

example : parseDay "2025120" = some ⟨2025, 1, 20⟩ := by decide

example : lexLt "2025-11-20T10:02:00Z".data "2025-11-20T9:02:00Z".data = true := by
  decide

example : fmtCompact ⟨2025, 11, 20, 9, 0, 5⟩ = "20251120_090005" := by decide

/-! ### Character and lexicographic-order lemmas -/

theorem charEq_of_toNat_eq {a b : Char} (h : a.toNat = b.toNat) : a = b :=
  Char.ext (UInt32.ext h)

theorem charLt_iff_toNat {a b : Char} : a < b ↔ a.toNat < b.toNat := Iff.rfl

theorem isDig_iff {c : Char} : isDig c = true ↔ 48 ≤ c.toNat ∧ c.toNat ≤ 57 := by
  simp [isDig]

theorem dv_le_nine {c : Char} (h : isDig c = true) : dv c ≤ 9 := by
  rcases isDig_iff.mp h with ⟨h1, h2⟩; unfold dv; omega

theorem dv_lt_iff {a b : Char} (ha : isDig a = true) (hb : isDig b = true) :
    a < b ↔ dv a < dv b := by
  rcases isDig_iff.mp ha with ⟨h1, h2⟩
  rcases isDig_iff.mp hb with ⟨h3, h4⟩
  rw [charLt_iff_toNat]; unfold dv; omega

theorem dv_eq_iff {a b : Char} (ha : isDig a = true) (hb : isDig b = true) :
    a = b ↔ dv a = dv b := by
  constructor
  · exact fun h => by rw [h]
  · intro h
    rcases isDig_iff.mp ha with ⟨h1, h2⟩
    rcases isDig_iff.mp hb with ⟨h3, h4⟩
    unfold dv at h
    exact charEq_of_toNat_eq (by omega)

theorem p2v_eq_some {a b : Char} {v : Nat} (h : p2v a b = some v) :
    isDig a = true ∧ isDig b = true ∧ v = 10 * dv a + dv b ∧ v ≤ 99 := by
  unfold p2v at h
  split at h
  · next hd =>
    rw [Bool.and_eq_true] at hd
    have hv : 10 * dv a + dv b = v := by injection h
    have := dv_le_nine hd.1
    have := dv_le_nine hd.2
    exact ⟨hd.1, hd.2, hv.symm, by omega⟩
  · exact absurd h (by simp)

theorem lexLt_cons {x y : Char} {as bs : List Char} :
    lexLt (x :: as) (y :: bs) =
      (if x < y then true else if y < x then false else lexLt as bs) := rfl

theorem lexLt_cons_same {c : Char} {as bs : List Char} :
    lexLt (c :: as) (c :: bs) = lexLt as bs := by
  rw [lexLt_cons, if_neg (lt_irrefl c), if_neg (lt_irrefl c)]

theorem lexLt_cons_iff {x y : Char} {as bs : List Char} :
    lexLt (x :: as) (y :: bs) = true ↔ x < y ∨ (x = y ∧ lexLt as bs = true) := by
  rw [lexLt_cons]
  rcases lt_trichotomy x y with h | h | h
  · simp [h]
  · subst h; simp [lt_irrefl]
  · simp [not_lt_of_gt h, h, ne_of_gt h]

theorem lexLt_irrefl (l : List Char) : lexLt l l = false := by
  induction l with
  | nil => rfl
  | cons c cs ih => rw [lexLt_cons_same]; exact ih

theorem lexLt_trans {a : List Char} : ∀ {b c : List Char},
    lexLt a b = true → lexLt b c = true → lexLt a c = true := by
  induction a with
  | nil =>
    intro b c h1 h2
    cases b with
    | nil => exact h2
    | cons y bs =>
      cases c with
      | nil => simp [lexLt] at h2
      | cons z cs => rfl
  | cons x as ih =>
    intro b c h1 h2
    cases b with
    | nil => simp [lexLt] at h1
    | cons y bs =>
      cases c with
      | nil => simp [lexLt] at h2
      | cons z cs =>
        rw [lexLt_cons_iff] at h1 h2 ⊢
        rcases h1 with h1 | ⟨rfl, h1⟩
        · rcases h2 with h2 | ⟨rfl, h2⟩
          · exact Or.inl (lt_trans h1 h2)
          · exact Or.inl h1
        · rcases h2 with h2 | ⟨rfl, h2⟩
          · exact Or.inl h2
          · exact Or.inr ⟨rfl, ih h1 h2⟩

theorem lexLt_tricho : ∀ (a b : List Char),
    lexLt a b = true ∨ a = b ∨ lexLt b a = true := by
  intro a
  induction a with
  | nil =>
    intro b
    cases b with
    | nil => exact Or.inr (Or.inl rfl)
    | cons y bs => exact Or.inl rfl
  | cons x as ih =>
    intro b
    cases b with
    | nil => exact Or.inr (Or.inr rfl)
    | cons y bs =>
      rcases lt_trichotomy x y with h | h | h
      · exact Or.inl (lexLt_cons_iff.mpr (Or.inl h))
      · subst h
        rcases ih bs with h2 | h2 | h2
        · exact Or.inl (lexLt_cons_iff.mpr (Or.inr ⟨rfl, h2⟩))
        · exact Or.inr (Or.inl (by rw [h2]))
        · exact Or.inr (Or.inr (lexLt_cons_iff.mpr (Or.inr ⟨rfl, h2⟩)))
      · exact Or.inr (Or.inr (lexLt_cons_iff.mpr (Or.inl h)))

theorem lexLt_asymm {a b : List Char} (h : lexLt a b = true) : lexLt b a = false := by
  by_contra hc
  have hba : lexLt b a = true := by
    cases hx : lexLt b a
    · exact absurd hx hc
    · rfl
  have := lexLt_trans h hba
  rw [lexLt_irrefl] at this
  cases this

theorem strLe_total (a b : String) : strLe a b = true ∨ strLe b a = true := by
  unfold strLe
  rcases lexLt_tricho b.data a.data with h | h | h
  · right; rw [lexLt_asymm h]; rfl
  · left; rw [h, lexLt_irrefl]; rfl
  · left; rw [lexLt_asymm h]; rfl

theorem strLe_trans {a b c : String} (h1 : strLe a b = true) (h2 : strLe b c = true) :
    strLe a c = true := by
  unfold strLe at h1 h2 ⊢
  rw [Bool.not_eq_true'] at h1 h2
  rw [Bool.not_eq_true']
  by_contra hc
  have hca : lexLt c.data a.data = true := by
    cases hx : lexLt c.data a.data
    · exact absurd hx hc
    · rfl
  rcases lexLt_tricho a.data b.data with h | h | h
  · have := lexLt_trans hca h; rw [h2] at this; cases this
  · rw [← h] at h2; rw [h2] at hca; cases hca
  · rw [h1] at h; cases h

/-- Comparing two two-digit groups lexicographically is comparing their
numeric values, with ties falling through to the rest. -/
theorem lexLt_d2 {a1 a2 b1 b2 : Char} {as bs : List Char} {va vb : Nat}
    (ha : p2v a1 a2 = some va) (hb : p2v b1 b2 = some vb) :
    lexLt (a1 :: a2 :: as) (b1 :: b2 :: bs) =
      (if va < vb then true else if vb < va then false else lexLt as bs) := by
  obtain ⟨ha1, ha2, rfl, hva⟩ := p2v_eq_some ha
  obtain ⟨hb1, hb2, rfl, hvb⟩ := p2v_eq_some hb
  have e1 := dv_le_nine ha1
  have e2 := dv_le_nine ha2
  have e3 := dv_le_nine hb1
  have e4 := dv_le_nine hb2
  rw [lexLt_cons]
  rcases lt_trichotomy a1 b1 with h | h | h
  · have hd := (dv_lt_iff ha1 hb1).mp h
    rw [if_pos h, if_pos (by omega)]
  · subst h
    rw [if_neg (lt_irrefl a1), if_neg (lt_irrefl a1), lexLt_cons]
    rcases lt_trichotomy a2 b2 with h | h | h
    · have hd := (dv_lt_iff ha2 hb2).mp h
      rw [if_pos h, if_pos (by omega)]
    · subst h
      rw [if_neg (lt_irrefl a2), if_neg (lt_irrefl a2),
        if_neg (lt_irrefl _), if_neg (lt_irrefl _)]
    · have hd := (dv_lt_iff hb2 ha2).mp h
      rw [if_neg (by exact not_lt_of_gt h), if_pos h,
        if_neg (by omega), if_pos (by omega)]
  · have hd := (dv_lt_iff hb1 ha1).mp h
    rw [if_neg (by exact not_lt_of_gt h), if_pos h,
      if_neg (by omega), if_pos (by omega)]

/-- A three-way comparison chain equals a decided proposition under the three
matching side conditions. -/
theorem ifchain {v1 v2 : Nat} {r : Bool} {P : Prop} [Decidable P]
    (hlt : v1 < v2 → P) (hgt : v2 < v1 → ¬P) (heq : v1 = v2 → r = decide P) :
    (if v1 < v2 then true else if v2 < v1 then false else r) = decide P := by
  rcases Nat.lt_trichotomy v1 v2 with h | h | h
  · rw [if_pos h]; exact (decide_eq_true (hlt h)).symm
  · rw [if_neg (by omega), if_neg (by omega)]; exact heq h
  · rw [if_neg (by omega), if_pos h]; exact (decide_eq_false (hgt h)).symm

theorem daysInMonth_le (y m : Nat) : daysInMonth y m ≤ 31 := by
  unfold daysInMonth
  split
  · split <;> omega
  · split <;> omega

/-! ### Stable sort lemmas -/

theorem insertSorted_perm (le : α → α → Bool) (a : α) (l : List α) :
    List.Perm (insertSorted le a l) (a :: l) := by
  induction l with
  | nil => exact List.Perm.refl _
  | cons b bs ih =>
    rw [insertSorted]
    by_cases h : le a b = true
    · rw [if_pos h]
    · rw [if_neg h]
      exact (ih.cons b).trans (List.Perm.swap a b bs)

theorem stableSort_perm (le : α → α → Bool) (l : List α) :
    List.Perm (stableSort le l) l := by
  induction l with
  | nil => exact List.Perm.refl _
  | cons a as ih =>
    rw [stableSort]
    exact (insertSorted_perm le a _).trans (ih.cons a)

theorem mem_stableSort {le : α → α → Bool} {l : List α} {x : α} :
    x ∈ stableSort le l ↔ x ∈ l :=
  (stableSort_perm le l).mem_iff

theorem mem_insertSorted {le : α → α → Bool} {l : List α} {a x : α} :
    x ∈ insertSorted le a l ↔ x = a ∨ x ∈ l := by
  rw [(insertSorted_perm le a l).mem_iff, List.mem_cons]

theorem sorted_insertSorted {le : α → α → Bool}
    (htrans : ∀ a b c, le a b = true → le b c = true → le a c = true)
    (htotal : ∀ a b, (le a b || le b a) = true)
    (a : α) {l : List α} (h : l.Pairwise (fun x y => le x y = true)) :
    (insertSorted le a l).Pairwise (fun x y => le x y = true) := by
  induction l with
  | nil => simp [insertSorted]
  | cons b bs ih =>
    rw [insertSorted]
    by_cases hab : le a b = true
    · rw [if_pos hab]
      refine List.Pairwise.cons ?_ h
      intro y hy
      rcases List.mem_cons.mp hy with rfl | hy2
      · exact hab
      · exact htrans a b y hab (List.rel_of_pairwise_cons h hy2)
    · rw [if_neg hab]
      have hba : le b a = true := by
        rcases Bool.or_eq_true_iff.mp (htotal a b) with hx | hx
        · exact absurd hx hab
        · exact hx
      refine List.Pairwise.cons ?_ (ih h.tail)
      intro y hy
      rcases mem_insertSorted.mp hy with rfl | hy2
      · exact hba
      · exact List.rel_of_pairwise_cons h hy2

theorem sorted_stableSort {le : α → α → Bool}
    (htrans : ∀ a b c, le a b = true → le b c = true → le a c = true)
    (htotal : ∀ a b, (le a b || le b a) = true) (l : List α) :
    (stableSort le l).Pairwise (fun x y => le x y = true) := by
  induction l with
  | nil => exact List.Pairwise.nil
  | cons a as ih =>
    rw [stableSort]
    exact sorted_insertSorted htrans htotal a ih

/-! ### Filter and sort lemmas -/

theorem entryTs_tsKeyStr {v : JVal} {dt : DateTime}
    (h : entryTs v = .ok (some dt)) : parseTs (tsKeyStr v) = some dt := by
  cases v with
  | obj fields =>
    cases hl : lookupField fields "ts" with
    | none => simp [entryTs, hl] at h
    | some fv =>
      cases fv with
      | null => simp [entryTs, hl] at h
      | num q => simp [entryTs, hl] at h
      | str s =>
        simp only [entryTs, hl] at h
        injection h with h
        simp only [tsKeyStr, hl]
        exact h
  | null => simp [entryTs] at h
  | num q => simp [entryTs] at h
  | str s => simp [entryTs] at h

theorem tsOf_eq_some {v : JVal} {dt : DateTime} (h : entryTs v = .ok (some dt)) :
    tsOf v = some dt := by
  unfold tsOf; rw [h]

theorem keyOf_eq {v : JVal} {dt : DateTime} (h : entryTs v = .ok (some dt)) :
    keyOf v = dt.key := by
  unfold keyOf; rw [tsOf_eq_some h]

theorem entryLe_trans (a b c : JVal) :
    entryLe a b = true → entryLe b c = true → entryLe a c = true :=
  strLe_trans

theorem entryLe_total (a b : JVal) : (entryLe a b || entryLe b a) = true := by
  unfold entryLe
  rcases strLe_total (tsKeyStr a) (tsKeyStr b) with h | h <;> simp [h]

/-- Every record the exact filter keeps comes from its input list, with a
parsed timestamp inside the closed query window. -/
theorem tsFilter_mem {s e : DateTime} : ∀ {l out logs},
    tsFilter s e l = .ok (out, logs) → ∀ v ∈ out,
      v ∈ l ∧ ∃ dt, entryTs v = .ok (some dt) ∧
        (dtLe s dt && dtLe dt e) = true := by
  intro l
  induction l with
  | nil =>
    intro out logs h v hv
    injection h with h
    have : out = [] := congrArg Prod.fst h.symm
    subst this
    cases hv
  | cons w rest ih =>
    intro out logs h v hv
    rw [tsFilter] at h
    cases hET : entryTs w with
    | error er => rw [hET] at h; cases h
    | ok odt =>
      rw [hET] at h
      cases odt with
      | none =>
        dsimp only at h
        cases hR : tsFilter s e rest with
        | error er => rw [hR] at h; cases h
        | ok res =>
          obtain ⟨o, lg⟩ := res
          rw [hR] at h
          injection h with h
          have ho : out = o := congrArg Prod.fst h.symm
          subst ho
          obtain ⟨hm, hrest⟩ := ih hR v hv
          exact ⟨List.mem_cons_of_mem _ hm, hrest⟩
      | some dt =>
        dsimp only at h
        by_cases hin : (dtLe s dt && dtLe dt e) = true
        · rw [if_pos hin] at h
          cases hR : tsFilter s e rest with
          | error er => rw [hR] at h; cases h
          | ok res =>
            obtain ⟨o, lg⟩ := res
            rw [hR] at h
            injection h with h
            have ho : out = w :: o := congrArg Prod.fst h.symm
            subst ho
            rcases List.mem_cons.mp hv with rfl | hv2
            · exact ⟨List.mem_cons_self _ _, dt, hET, hin⟩
            · obtain ⟨hm, hrest⟩ := ih hR v hv2
              exact ⟨List.mem_cons_of_mem _ hm, hrest⟩
        · rw [if_neg hin] at h
          obtain ⟨hm, hrest⟩ := ih h v hv
          exact ⟨List.mem_cons_of_mem _ hm, hrest⟩

/-- Every in-window record of the input survives the exact filter. -/
theorem tsFilter_complete {s e : DateTime} : ∀ {l out logs},
    tsFilter s e l = .ok (out, logs) → ∀ {v dt}, v ∈ l →
      entryTs v = .ok (some dt) → (dtLe s dt && dtLe dt e) = true → v ∈ out := by
  intro l
  induction l with
  | nil => intro out logs h v dt hv; cases hv
  | cons w rest ih =>
    intro out logs h v dt hv hET hin
    rw [tsFilter] at h
    rcases List.mem_cons.mp hv with rfl | hv2
    · rw [hET] at h
      dsimp only at h
      rw [if_pos hin] at h
      cases hR : tsFilter s e rest with
      | error er => rw [hR] at h; cases h
      | ok res =>
        obtain ⟨o, lg⟩ := res
        rw [hR] at h
        injection h with h
        have ho : out = v :: o := congrArg Prod.fst h.symm
        subst ho
        exact List.mem_cons_self _ _
    · cases hW : entryTs w with
      | error er => rw [hW] at h; cases h
      | ok odt =>
        rw [hW] at h
        cases odt with
        | none =>
          dsimp only at h
          cases hR : tsFilter s e rest with
          | error er => rw [hR] at h; cases h
          | ok res =>
            obtain ⟨o, lg⟩ := res
            rw [hR] at h
            injection h with h
            have ho : out = o := congrArg Prod.fst h.symm
            subst ho
            exact ih hR hv2 hET hin
        | some dt2 =>
          dsimp only at h
          by_cases hin2 : (dtLe s dt2 && dtLe dt2 e) = true
          · rw [if_pos hin2] at h
            cases hR : tsFilter s e rest with
            | error er => rw [hR] at h; cases h
            | ok res =>
              obtain ⟨o, lg⟩ := res
              rw [hR] at h
              injection h with h
              have ho : out = w :: o := congrArg Prod.fst h.symm
              subst ho
              exact List.mem_cons_of_mem _ (ih hR hv2 hET hin)
          · rw [if_neg hin2] at h
            exact ih h hv2 hET hin

/-- The exact filter succeeds when no entry raises. -/
theorem tsFilter_ok {s e : DateTime} : ∀ {l : List JVal},
    (∀ v ∈ l, ∃ r, entryTs v = .ok r) → ∃ res, tsFilter s e l = .ok res := by
  intro l
  induction l with
  | nil => intro h; exact ⟨([], []), rfl⟩
  | cons w rest ih =>
    intro h
    obtain ⟨res, hres⟩ := ih (fun v hv => h v (List.mem_cons_of_mem _ hv))
    obtain ⟨o, lg⟩ := res
    obtain ⟨r, hr⟩ := h w (List.mem_cons_self _ _)
    rw [tsFilter]
    cases r with
    | none =>
      rw [hr]
      dsimp only
      rw [hres]
      exact ⟨(o, .badTs :: lg), rfl⟩
    | some dt =>
      rw [hr]
      dsimp only
      by_cases hin : (dtLe s dt && dtLe dt e) = true
      · rw [if_pos hin, hres]; exact ⟨(w :: o, .addEntry dt :: lg), rfl⟩
      · rw [if_neg hin]; exact ⟨(o, lg), hres⟩

/-- A record whose string timestamp fails to parse leaves a log record. -/
theorem tsFilter_badTs {s e : DateTime} : ∀ {l out logs},
    tsFilter s e l = .ok (out, logs) → ∀ {v}, v ∈ l →
      entryTs v = .ok none → .badTs ∈ logs := by
  intro l
  induction l with
  | nil => intro out logs h v hv; cases hv
  | cons w rest ih =>
    intro out logs h v hv hbad
    rw [tsFilter] at h
    rcases List.mem_cons.mp hv with rfl | hv2
    · rw [hbad] at h
      dsimp only at h
      cases hR : tsFilter s e rest with
      | error er => rw [hR] at h; cases h
      | ok res =>
        obtain ⟨o, lg⟩ := res
        rw [hR] at h
        injection h with h
        have hlg : logs = .badTs :: lg := congrArg Prod.snd h.symm
        rw [hlg]
        exact List.mem_cons_self _ _
    · cases hW : entryTs w with
      | error er => rw [hW] at h; cases h
      | ok odt =>
        rw [hW] at h
        cases odt with
        | none =>
          dsimp only at h
          cases hR : tsFilter s e rest with
          | error er => rw [hR] at h; cases h
          | ok res =>
            obtain ⟨o, lg⟩ := res
            rw [hR] at h
            injection h with h
            have hlg : logs = .badTs :: lg := congrArg Prod.snd h.symm
            rw [hlg]
            exact List.mem_cons_of_mem _ (ih hR hv2 hbad)
        | some dt2 =>
          dsimp only at h
          by_cases hin2 : (dtLe s dt2 && dtLe dt2 e) = true
          · rw [if_pos hin2] at h
            cases hR : tsFilter s e rest with
            | error er => rw [hR] at h; cases h
            | ok res =>
              obtain ⟨o, lg⟩ := res
              rw [hR] at h
              injection h with h
              have hlg : logs = .addEntry dt2 :: lg := congrArg Prod.snd h.symm
              rw [hlg]
              exact List.mem_cons_of_mem _ (ih hR hv2 hbad)
          · rw [if_neg hin2] at h
            exact ih h hv2 hbad

/-- Inverting a successful `load_data` call: the result is the sorted output
of the exact filter on the combined candidate data. -/
theorem load_data_fst_ok {dir : List (String × FileContent)} {s e : DateTime}
    {out : List JVal} (h : (load_data dir s e).1 = .ok out) :
    ∃ o l4, tsFilter s e (combinedData dir s e) = .ok (o, l4) ∧ out = sortByTs o := by
  unfold load_data at h
  cases hTF : tsFilter s e (combinedData dir s e) with
  | error er =>
    rw [hTF] at h
    cases h
  | ok res =>
    obtain ⟨o, l4⟩ := res
    rw [hTF] at h
    dsimp only at h
    injection h with h
    exact ⟨o, l4, rfl, h.symm⟩

/-! ### Crash atomicity of the segment write -/

theorem applyOps_append (fs : FS) (l1 l2 : List FsOp) :
    applyOps fs (l1 ++ l2) = applyOps (applyOps fs l1) l2 :=
  List.foldl_append _ _ _ _

/-- Writes streamed into the temporary file leave every other path alone. -/
theorem applyOps_write_other (tmp path : String) (hne : tmp ≠ path) :
    ∀ (l : List String) (fs : FS),
      applyOps fs (l.map (FsOp.writeChunk tmp)) path = fs path := by
  intro l
  induction l with
  | nil => intro fs; rfl
  | cons c cs ih =>
    intro fs
    rw [List.map_cons]
    show applyOps (applyOp fs (.writeChunk tmp c)) (cs.map (FsOp.writeChunk tmp)) path
      = fs path
    rw [ih]
    show (if path = tmp then some ((fs tmp).getD "" ++ c) else fs path) = fs path
    rw [if_neg (fun hp => hne hp.symm)]

/-- Writes streamed into the temporary file accumulate its contents. -/
theorem applyOps_write_content (tmp : String) :
    ∀ (chunks : List String) (fs : FS) (acc : String), fs tmp = some acc →
      applyOps fs (chunks.map (FsOp.writeChunk tmp)) tmp
        = some (acc ++ concatChunks chunks) := by
  intro chunks
  induction chunks with
  | nil =>
    intro fs acc hacc
    show fs tmp = some (acc ++ concatChunks [])
    rw [hacc, show concatChunks [] = "" from rfl, String.append_empty]
  | cons c cs ih =>
    intro fs acc hacc
    rw [List.map_cons]
    show applyOps (applyOp fs (.writeChunk tmp c)) (cs.map (FsOp.writeChunk tmp)) tmp
      = some (acc ++ concatChunks (c :: cs))
    have hstep : (applyOp fs (.writeChunk tmp c)) tmp = some (acc ++ c) := by
      show (if tmp = tmp then some ((fs tmp).getD "" ++ c) else fs tmp) = some (acc ++ c)
      rw [if_pos rfl, hacc]
      rfl
    rw [ih _ _ hstep, show concatChunks (c :: cs) = c ++ concatChunks cs from rfl,
      String.append_assoc]

/-- After the full `atomic_write_json` step sequence the target path holds
exactly the streamed contents. -/
theorem atomic_write_final (fs : FS) (tmp path : String) (chunks : List String)
    (hne : tmp ≠ path) :
    applyOps fs (atomic_write_json tmp path chunks) path
      = some (concatChunks chunks) := by
  unfold atomic_write_json
  rw [applyOps_append]
  have hcreate : (applyOp fs (.create tmp)) tmp = some "" := by
    show (if tmp = tmp then some "" else fs tmp) = some ""
    rw [if_pos rfl]
  have htmp :
      applyOps (applyOp fs (.create tmp)) (chunks.map (FsOp.writeChunk tmp)) tmp
        = some ("" ++ concatChunks chunks) :=
    applyOps_write_content tmp chunks _ "" hcreate
  show (if path = path then
      applyOps (applyOp fs (.create tmp)) (chunks.map (FsOp.writeChunk tmp)) tmp
    else _) = some (concatChunks chunks)
  rw [if_pos rfl, htmp, String.empty_append]

/-- C2: killing the process after any prefix of the steps of one
`append_reading` write leaves the segment file holding either its pre-call
contents or the full serialized updated list — never a truncation; the path
itself is only touched by the final rename. -/
theorem C2_append_crash_atomic (fs : FS) (tmp path : String) (prior : SegRead)
    (reading : JVal) (payload : List JVal) (logs : List LogEv)
    (chunks : List String) (k : Nat) (hne : tmp ≠ path)
    (happ : append_reading prior reading = .ok (payload, logs))
    (hser : concatChunks chunks = serializeEntries payload) :
    applyOps fs ((atomic_write_json tmp path chunks).take k) path = fs path ∨
      applyOps fs ((atomic_write_json tmp path chunks).take k) path
        = some (serializeEntries payload) := by
  rw [← hser]
  cases k with
  | zero => left; rfl
  | succ j =>
    by_cases hj : j ≤ chunks.length
    · left
      unfold atomic_write_json
      have hle : j + 1 ≤ (FsOp.create tmp :: chunks.map (FsOp.writeChunk tmp)).length := by
        rw [List.length_cons, List.length_map]
        omega
      rw [List.take_append_of_le_length hle, List.take_succ_cons, ← List.map_take]
      show applyOps (applyOp fs (.create tmp))
        ((chunks.take j).map (FsOp.writeChunk tmp)) path = fs path
      rw [applyOps_write_other tmp path hne]
      show (if path = tmp then some "" else fs path) = fs path
      rw [if_neg (fun hp => hne hp.symm)]
    · right
      have hlen : (atomic_write_json tmp path chunks).length ≤ j + 1 := by
        unfold atomic_write_json
        rw [List.length_append, List.length_cons, List.length_map]
        simp only [List.length_singleton]
        omega
      rw [List.take_of_length_le hlen]
      exact atomic_write_final fs tmp path chunks hne

/-- Witness for C2: a crash right after both serialized chunks are streamed
(but before the rename) leaves the old contents in place. -/
theorem C2_witness :
    applyOps (fun q => if q = "data/sensor_20251120_090000.json" then some "old" else none)
        ((atomic_write_json ".tmp_json_ab" "data/sensor_20251120_090000.json"
          ["[nu", "ll]"]).take 3) "data/sensor_20251120_090000.json"
      = (fun q => if q = "data/sensor_20251120_090000.json" then some "old" else none)
          "data/sensor_20251120_090000.json" ∨
    applyOps (fun q => if q = "data/sensor_20251120_090000.json" then some "old" else none)
        ((atomic_write_json ".tmp_json_ab" "data/sensor_20251120_090000.json"
          ["[nu", "ll]"]).take 3) "data/sensor_20251120_090000.json"
      = some (serializeEntries [JVal.null]) :=
  C2_append_crash_atomic _ ".tmp_json_ab" "data/sensor_20251120_090000.json"
    (.content []) .null [JVal.null] [] ["[nu", "ll]"] 3 (by decide) (by rfl) (by decide)

/-- C4: appending over an existing segment file that is present but fails to
parse does not fail: the corrupt prior contents are treated as an empty
prior history, the problem is logged, and the new reading is persisted as
the sole element of the rewritten segment. -/
theorem C4_append_corrupt_recovers (reading : JVal) (fs : FS) (tmp path : String)
    (chunks : List String) (hne : tmp ≠ path)
    (hser : concatChunks chunks = serializeEntries [reading]) :
    append_reading .corrupt reading = .ok ([reading], [.readCorrupt]) ∧
      applyOps fs (atomic_write_json tmp path chunks) path
        = some (serializeEntries [reading]) := by
  refine ⟨rfl, ?_⟩
  rw [← hser]
  exact atomic_write_final fs tmp path chunks hne

/-- Witness for C4 at a concrete reading and a concrete corrupt file. -/
theorem C4_witness :
    (append_reading .corrupt (.obj [("ts", .str "2025-11-20T10:00:00Z")])
        = .ok ([.obj [("ts", .str "2025-11-20T10:00:00Z")]], [.readCorrupt])) ∧
      applyOps (fun _ => some "corrupt")
          (atomic_write_json ".tmp_json_x" "data/sensor_20251120_090000.json"
            [serializeEntries [.obj [("ts", .str "2025-11-20T10:00:00Z")]]])
          "data/sensor_20251120_090000.json"
        = some (serializeEntries [.obj [("ts", .str "2025-11-20T10:00:00Z")]]) :=
  C4_append_corrupt_recovers _ _ ".tmp_json_x" "data/sensor_20251120_090000.json"
    [serializeEntries [.obj [("ts", .str "2025-11-20T10:00:00Z")]]]
    (by decide) (by decide)

/-! ### Rotation -/

/-- C5 counterexample: a tick whose decision-time clock reads 09:00:00 but
whose rotation-time clock reads 09:00:02 does rotate (hand-off emitted), yet
the new `cycle_start` is not the `now` of the tick — the source re-reads
`datetime.utcnow()` when resetting. -/
theorem C5_counterexample :
    (rotate_step ⟨2025, 11, 20, 9, 0, 0⟩ ⟨2025, 11, 20, 9, 0, 2⟩
        ⟨⟨2025, 11, 20, 8, 0, 0⟩, segPath ⟨2025, 11, 20, 8, 0, 0⟩⟩ 3600).2
      = some (segPath ⟨2025, 11, 20, 8, 0, 0⟩) ∧
    (rotate_step ⟨2025, 11, 20, 9, 0, 0⟩ ⟨2025, 11, 20, 9, 0, 2⟩
        ⟨⟨2025, 11, 20, 8, 0, 0⟩, segPath ⟨2025, 11, 20, 8, 0, 0⟩⟩ 3600).1.cycle_start
      ≠ ⟨2025, 11, 20, 9, 0, 0⟩ := by
  constructor
  · decide
  · decide

/-- C5 (amended): rotation occurs exactly when
`(now - cycle_start).total_seconds() >= seconds_per_cycle`; on rotation the
controller hands off the path of the segment that just closed, resets
`cycle_start` to the freshly-read clock value of the rotation moment (not
necessarily the `now` of the decision), and derives the new active segment
path from that new `cycle_start` via the naming scheme. -/
theorem C5_rotation_step (now nowRot : DateTime) (st : LoopState) (cyc : Nat) :
    ((rotate_step now nowRot st cyc).2.isSome = true ↔
        (cyc : Int) ≤ (toSecs now : Int) - (toSecs st.cycle_start : Int)) ∧
      (should_rotate now st cyc = true →
        rotate_step now nowRot st cyc
          = (⟨nowRot, segPath nowRot⟩, some st.json_path)) ∧
      (should_rotate now st cyc = false →
        rotate_step now nowRot st cyc = (st, none)) := by
  refine ⟨?_, ?_, ?_⟩
  · unfold rotate_step
    by_cases h : should_rotate now st cyc = true
    · rw [if_pos h]
      simp only [Option.isSome_some, true_iff]
      exact of_decide_eq_true h
    · rw [if_neg h]
      simp only [Option.isSome_none, Bool.false_eq_true, false_iff]
      intro hc
      exact h (decide_eq_true hc)
  · intro h
    unfold rotate_step
    rw [if_pos h]
  · intro h
    unfold rotate_step
    rw [if_neg (by rw [h]; exact Bool.false_ne_true)]

/-- Witness for C5 at a concrete rotating tick. -/
theorem C5_witness :
    ((rotate_step ⟨2025, 11, 20, 9, 0, 5⟩ ⟨2025, 11, 20, 9, 0, 7⟩
          ⟨⟨2025, 11, 20, 8, 0, 0⟩, segPath ⟨2025, 11, 20, 8, 0, 0⟩⟩ 3600).2.isSome = true ↔
        (3600 : Int) ≤ (toSecs ⟨2025, 11, 20, 9, 0, 5⟩ : Int)
          - (toSecs ⟨2025, 11, 20, 8, 0, 0⟩ : Int)) ∧
      (should_rotate ⟨2025, 11, 20, 9, 0, 5⟩
          ⟨⟨2025, 11, 20, 8, 0, 0⟩, segPath ⟨2025, 11, 20, 8, 0, 0⟩⟩ 3600 = true →
        rotate_step ⟨2025, 11, 20, 9, 0, 5⟩ ⟨2025, 11, 20, 9, 0, 7⟩
            ⟨⟨2025, 11, 20, 8, 0, 0⟩, segPath ⟨2025, 11, 20, 8, 0, 0⟩⟩ 3600
          = (⟨⟨2025, 11, 20, 9, 0, 7⟩, segPath ⟨2025, 11, 20, 9, 0, 7⟩⟩,
             some (segPath ⟨2025, 11, 20, 8, 0, 0⟩))) ∧
      (should_rotate ⟨2025, 11, 20, 9, 0, 5⟩
          ⟨⟨2025, 11, 20, 8, 0, 0⟩, segPath ⟨2025, 11, 20, 8, 0, 0⟩⟩ 3600 = false →
        rotate_step ⟨2025, 11, 20, 9, 0, 5⟩ ⟨2025, 11, 20, 9, 0, 7⟩
            ⟨⟨2025, 11, 20, 8, 0, 0⟩, segPath ⟨2025, 11, 20, 8, 0, 0⟩⟩ 3600
          = (⟨⟨2025, 11, 20, 8, 0, 0⟩, segPath ⟨2025, 11, 20, 8, 0, 0⟩⟩, none)) :=
  C5_rotation_step ⟨2025, 11, 20, 9, 0, 5⟩ ⟨2025, 11, 20, 9, 0, 7⟩
    ⟨⟨2025, 11, 20, 8, 0, 0⟩, segPath ⟨2025, 11, 20, 8, 0, 0⟩⟩ 3600

/-! ### Candidate segment selection -/

theorem isDig_digitChar {n : Nat} (h : n < 10) : isDig (Nat.digitChar n) = true := by
  interval_cases n <;> decide

theorem dv_digitChar {n : Nat} (h : n < 10) : dv (Nat.digitChar n) = n := by
  interval_cases n <;> decide

theorem digitChar_ne_us {n : Nat} (h : n < 10) : Nat.digitChar n ≠ '_' := by
  interval_cases n <;> decide

theorem p2v_digitChar {a b : Nat} (ha : a < 10) (hb : b < 10) :
    p2v (Nat.digitChar a) (Nat.digitChar b) = some (10 * a + b) := by
  unfold p2v
  rw [isDig_digitChar ha, isDig_digitChar hb, dv_digitChar ha, dv_digitChar hb]
  rfl

theorem p2v_pad2 {v : Nat} (h : v ≤ 99) :
    p2v (Nat.digitChar (v / 10 % 10)) (Nat.digitChar (v % 10)) = some v := by
  rw [p2v_digitChar (by omega) (by omega)]
  congr 1
  omega

theorem digitChar_ne_space {n : Nat} (h : n < 10) : Nat.digitChar n ≠ ' ' := by
  interval_cases n <;> decide

theorem pD2_pad2 {v : Nat} (h : v ≤ 99) (rest : List Char) :
    pD2 (pad2 v ++ rest) = some (v, rest) := by
  show pD2 (Nat.digitChar (v / 10 % 10) :: Nat.digitChar (v % 10) :: rest)
    = some (v, rest)
  simp only [pD2]
  rw [p2v_pad2 h]
  rfl

theorem pSep_self (c : Char) (rest : List Char) : pSep c (c :: rest) = some rest := by
  simp [pSep]

theorem pSep2_self (c1 c2 : Char) (rest : List Char) :
    pSep2 c1 c2 (c1 :: rest) = some rest := by
  simp [pSep2]

theorem pD12_pad2 {v : Nat} (h : v ≤ 99) (rest : List Char) :
    pD12 (pad2 v ++ rest) = some (v, rest) := by
  show pD12 (Nat.digitChar (v / 10 % 10) :: Nat.digitChar (v % 10) :: rest)
    = some (v, rest)
  simp only [pD12]
  rw [if_pos (isDig_digitChar (show v / 10 % 10 < 10 by omega)),
    if_pos (isDig_digitChar (show v % 10 < 10 by omega)),
    dv_digitChar (show v / 10 % 10 < 10 by omega),
    dv_digitChar (show v % 10 < 10 by omega)]
  have hval : 10 * (v / 10 % 10) + v % 10 = v := by omega
  rw [hval]

theorem pDay_pad2 {v : Nat} (h : v ≤ 99) (rest : List Char) :
    pDay (pad2 v ++ rest) = some (v, rest) := by
  show pDay (Nat.digitChar (v / 10 % 10) :: Nat.digitChar (v % 10) :: rest)
    = some (v, rest)
  simp only [pDay]
  rw [if_neg (digitChar_ne_space (show v / 10 % 10 < 10 by omega))]
  exact pD12_pad2 h rest

theorem hasPfx_append (p rest : List Char) : hasPfx p (p ++ rest) = true := by
  induction p with
  | nil => rfl
  | cons c cs ih =>
    rw [List.cons_append]
    show (c == c && hasPfx cs (cs ++ rest)) = true
    rw [ih, beq_self_eq_true]
    rfl

theorem splitUnderscore_sep (l1 : List Char) (h : ∀ c ∈ l1, c ≠ '_') (l2 : List Char) :
    splitUnderscore (l1 ++ '_' :: l2) = l1 :: splitUnderscore l2 := by
  induction l1 with
  | nil =>
    rw [List.nil_append]
    show splitUnderscore ('_' :: l2) = [] :: splitUnderscore l2
    rw [splitUnderscore, if_pos rfl]
  | cons c cs ih =>
    rw [List.cons_append, splitUnderscore,
      if_neg (h c (List.mem_cons_self _ _)),
      ih (fun x hx => h x (List.mem_cons_of_mem _ hx))]

theorem pad2_chars (v : Nat) : ∀ c ∈ pad2 v, c ≠ '_' := by
  intro c hc
  rcases List.mem_cons.mp hc with rfl | hc2
  · exact digitChar_ne_us (Nat.mod_lt _ (by omega))
  · rcases List.mem_cons.mp hc2 with rfl | hc3
    · exact digitChar_ne_us (Nat.mod_lt _ (by omega))
    · cases hc3

theorem pad4_chars (v : Nat) : ∀ c ∈ pad4 v, c ≠ '_' := by
  intro c hc
  rcases List.mem_append.mp hc with hx | hx
  · exact pad2_chars _ c hx
  · exact pad2_chars _ c hx

/-- On the zero-padded month digits of the naming scheme, the two-digit
month alternative matches first. -/
theorem monthAlts_pad2 {mo : Nat} (h1 : 1 ≤ mo) (h2 : mo ≤ 12) (rest : List Char) :
    ∃ tail, monthAlts (pad2 mo ++ rest) = (mo, rest) :: tail := by
  show ∃ tail, monthAlts
    (Nat.digitChar (mo / 10 % 10) :: Nat.digitChar (mo % 10) :: rest)
    = (mo, rest) :: tail
  simp only [monthAlts]
  rw [isDig_digitChar (show mo / 10 % 10 < 10 by omega),
    isDig_digitChar (show mo % 10 < 10 by omega),
    dv_digitChar (show mo / 10 % 10 < 10 by omega),
    dv_digitChar (show mo % 10 < 10 by omega)]
  simp only [Bool.true_and]
  have hcond : ((mo / 10 % 10 == 1 && decide (mo % 10 ≤ 2)) ||
      (mo / 10 % 10 == 0 && decide (1 ≤ mo % 10))) = true := by
    rcases Nat.lt_or_ge mo 10 with hx | hx
    · have e0 : mo / 10 % 10 = 0 := by omega
      have e1 : 1 ≤ mo % 10 := by omega
      rw [e0]
      simp [e1]
    · have e0 : mo / 10 % 10 = 1 := by omega
      have e1 : mo % 10 ≤ 2 := by omega
      rw [e0]
      simp [e1]
  rw [if_pos hcond]
  have hval : 10 * (mo / 10 % 10) + mo % 10 = mo := by omega
  rw [hval, List.singleton_append]
  exact ⟨_, rfl⟩

/-- On the zero-padded day digits of the naming scheme (and nothing after
them), the two-digit day alternative is the only one consuming the whole
remainder. -/
theorem dayAlts_pad2_filterMap {da : Nat} (mo : Nat) (h1 : 1 ≤ da) (h2 : da ≤ 31) :
    (dayAlts (pad2 da)).filterMap (fun q =>
        if q.2.isEmpty then some (mo, q.1) else none) = [(mo, da)] := by
  show (dayAlts [Nat.digitChar (da / 10 % 10), Nat.digitChar (da % 10)]).filterMap
      (fun q => if q.2.isEmpty then some (mo, q.1) else none) = [(mo, da)]
  simp only [dayAlts]
  rw [isDig_digitChar (show da / 10 % 10 < 10 by omega),
    isDig_digitChar (show da % 10 < 10 by omega),
    dv_digitChar (show da / 10 % 10 < 10 by omega),
    dv_digitChar (show da % 10 < 10 by omega)]
  simp only [Bool.true_and]
  have hcond : ((da / 10 % 10 == 3 && decide (da % 10 ≤ 1)) || da / 10 % 10 == 1 ||
      da / 10 % 10 == 2 || (da / 10 % 10 == 0 && decide (1 ≤ da % 10))) = true := by
    rcases Nat.lt_or_ge da 10 with hx | hx
    · have e0 : da / 10 % 10 = 0 := by omega
      have e1 : 1 ≤ da % 10 := by omega
      rw [e0]
      simp [e1]
    · rcases Nat.lt_or_ge da 20 with hy | hy
      · have e0 : da / 10 % 10 = 1 := by omega
        rw [e0]
        simp
      · rcases Nat.lt_or_ge da 30 with hz | hz
        · have e0 : da / 10 % 10 = 2 := by omega
          rw [e0]
          simp
        · have e0 : da / 10 % 10 = 3 := by omega
          have e1 : da % 10 ≤ 1 := by omega
          rw [e0]
          simp [e1]
  rw [if_pos hcond]
  have hsp : (decide (Nat.digitChar (da / 10 % 10) = ' ')) = false :=
    decide_eq_false (digitChar_ne_space (show da / 10 % 10 < 10 by omega))
  rw [hsp]
  simp only [Bool.false_and, if_neg (by simp : ¬ (false : Bool) = true)]
  have hval : 10 * (da / 10 % 10) + da % 10 = da := by omega
  rw [hval]
  rw [List.filterMap_append, List.filterMap_append]
  by_cases hone : (decide (1 ≤ da / 10 % 10)) = true
  · rw [if_pos hone]
    rfl
  · rw [if_neg hone]
    rfl

/-- The eight date digits of the naming scheme parse back to the date of the
encoded instant. -/
theorem parseDay_pads {dt : DateTime} (hv : dt.Valid) :
    parseDay ⟨pad4 dt.year ++ pad2 dt.month ++ pad2 dt.day⟩ = some dt.date := by
  obtain ⟨v1, v2, v3, v4, v5, v6, _, _, _⟩ := hv
  have hd31 : dt.day ≤ 31 := le_trans v6 (daysInMonth_le _ _)
  rw [parseDay]
  have hdata : (String.mk (pad4 dt.year ++ pad2 dt.month ++ pad2 dt.day)).data
      = pad2 (dt.year / 100) ++ (pad2 (dt.year % 100)
        ++ (pad2 dt.month ++ pad2 dt.day)) := rfl
  rw [hdata]
  rw [pD2_pad2 (show dt.year / 100 ≤ 99 by omega)]
  simp only [bind, Option.some_bind]
  rw [pD2_pad2 (show dt.year % 100 ≤ 99 by omega)]
  simp only [bind, Option.some_bind]
  obtain ⟨tail, hm⟩ := monthAlts_pad2 v3 v4 (pad2 dt.day)
  rw [hm, List.flatMap_cons]
  dsimp only
  rw [dayAlts_pad2_filterMap dt.month v5 hd31, List.singleton_append]
  dsimp only
  have hy : 100 * (dt.year / 100) + dt.year % 100 = dt.year := by omega
  rw [hy]
  rw [if_pos ?hvalid]
  case hvalid =>
    exact ⟨v1, v2, v3, v4, v5, v6⟩
  rfl

/-- A canonical segment basename passes the name filter and encodes the day
of its instant. -/
theorem fileDay_segBasename {dt : DateTime} (hv : dt.Valid) :
    nameMatches (segBasename dt) = true ∧ fileDay (segBasename dt) = some dt.date := by
  have hdata : (segBasename dt).data
      = ['s', 'e', 'n', 's', 'o', 'r'] ++ '_' ::
        ((pad4 dt.year ++ pad2 dt.month ++ pad2 dt.day) ++ '_' ::
          (pad2 dt.hour ++ pad2 dt.minute ++ pad2 dt.second ++ ['.', 'j', 's', 'o', 'n'])) := by
    show ("sensor_" ++ fmtCompact dt ++ ".json").data = _
    rw [String.data_append, String.data_append]
    show ['s', 'e', 'n', 's', 'o', 'r', '_']
      ++ (pad4 dt.year ++ pad2 dt.month ++ pad2 dt.day
        ++ '_' :: (pad2 dt.hour ++ pad2 dt.minute ++ pad2 dt.second))
      ++ ['.', 'j', 's', 'o', 'n'] = _
    simp [List.append_assoc, List.cons_append]
  constructor
  · unfold nameMatches
    rw [Bool.and_eq_true]
    constructor
    · rw [hdata]
      show hasPfx "sensor_".data (['s', 'e', 'n', 's', 'o', 'r', '_'] ++ _) = true
      exact hasPfx_append _ _
    · rw [hdata]
      have : (['s', 'e', 'n', 's', 'o', 'r'] ++ '_' ::
          ((pad4 dt.year ++ pad2 dt.month ++ pad2 dt.day) ++ '_' ::
            (pad2 dt.hour ++ pad2 dt.minute ++ pad2 dt.second
              ++ ['.', 'j', 's', 'o', 'n']))).reverse
          = ".json".data.reverse ++
            (pad2 dt.hour ++ pad2 dt.minute ++ pad2 dt.second).reverse
            ++ ('_' :: ((pad4 dt.year ++ pad2 dt.month ++ pad2 dt.day).reverse
              ++ ('_' :: ['r', 'o', 's', 'n', 'e', 's']))) := by
        simp [List.reverse_append, List.reverse_cons, List.append_assoc]
      rw [this, List.append_assoc]
      exact hasPfx_append _ _
  · unfold fileDay
    rw [hdata, splitUnderscore_sep _ (by decide) _,
      splitUnderscore_sep _ ?hnous _]
    case hnous =>
      intro c hc
      rcases List.mem_append.mp hc with hx | hx
      · rcases List.mem_append.mp hx with hy | hy
        · exact pad4_chars _ c hy
        · exact pad2_chars _ c hy
      · exact pad2_chars _ c hx
    show parseDay ⟨pad4 dt.year ++ pad2 dt.month ++ pad2 dt.day⟩ = some dt.date
    exact parseDay_pads hv

theorem isCandidate_iff {s e : DateTime} {f : String} :
    isCandidate s e f = true ↔
      nameMatches f = true ∧ ∃ d, fileDay f = some d ∧
        dLe (searchStartDate s) d = true ∧ dLe d e.date = true := by
  unfold isCandidate
  rw [Bool.and_eq_true]
  cases hd : fileDay f with
  | none =>
    simp only [hd]
    constructor
    · intro ⟨_, hx⟩; cases hx
    · intro ⟨_, d, hx, _⟩; cases hx
  | some d =>
    simp only [hd]
    constructor
    · intro ⟨h1, h2⟩
      rw [Bool.and_eq_true] at h2
      exact ⟨h1, d, rfl, h2.1, h2.2⟩
    · intro ⟨h1, d2, hx, h3, h4⟩
      injection hx with hx
      subst hx
      exact ⟨h1, by rw [Bool.and_eq_true]; exact ⟨h3, h4⟩⟩

/-- Membership in the candidate list of step 2 of `load_data`. -/
theorem mem_relevantFiles {names : List String} {s e : DateTime} {f : String} :
    f ∈ relevantFiles names s e ↔
      f ∈ names ∧ nameMatches f = true ∧ ∃ d, fileDay f = some d ∧
        dLe (searchStartDate s) d = true ∧ dLe d e.date = true := by
  unfold relevantFiles
  rw [List.mem_filter, mem_stableSort, isCandidate_iff]

/-- C3: a file of the naming scheme is selected as a candidate (and hence
loaded, `combinedData` iterating exactly `relevantFiles`) precisely when its
encoded day lies between `(start - 1 day).date` and `end.date` inclusive —
in particular a segment created late on the day before `start.date` is still
selected; and in general exactly the files whose name parses to a day in
that window are selected. -/
theorem C3_candidate_window (names : List String) (s e dt : DateTime)
    (hv : dt.Valid) :
    (segBasename dt ∈ relevantFiles names s e ↔
      segBasename dt ∈ names ∧
        dLe (searchStartDate s) dt.date = true ∧ dLe dt.date e.date = true) ∧
    (∀ f, f ∈ relevantFiles names s e ↔
      f ∈ names ∧ nameMatches f = true ∧ ∃ d, fileDay f = some d ∧
        dLe (searchStartDate s) d = true ∧ dLe d e.date = true) := by
  obtain ⟨hnm, hfd⟩ := fileDay_segBasename hv
  constructor
  · rw [mem_relevantFiles]
    constructor
    · intro ⟨h1, _, d, hx, h3, h4⟩
      rw [hfd] at hx
      injection hx with hx
      subst hx
      exact ⟨h1, h3, h4⟩
    · intro ⟨h1, h3, h4⟩
      exact ⟨h1, hnm, dt.date, hfd, h3, h4⟩
  · intro f
    exact mem_relevantFiles

/-- Witness for C3: a segment created at 23:30 on the day before the window
start is still a candidate. -/
theorem C3_witness :
    (segBasename ⟨2025, 11, 19, 23, 30, 0⟩
        ∈ relevantFiles ["sensor_20251119_233000.json"]
          ⟨2025, 11, 20, 10, 1, 0⟩ ⟨2025, 11, 20, 10, 5, 0⟩ ↔
      segBasename ⟨2025, 11, 19, 23, 30, 0⟩ ∈ ["sensor_20251119_233000.json"] ∧
        dLe (searchStartDate ⟨2025, 11, 20, 10, 1, 0⟩)
          (DateTime.date ⟨2025, 11, 19, 23, 30, 0⟩) = true ∧
        dLe (DateTime.date ⟨2025, 11, 19, 23, 30, 0⟩)
          (DateTime.date ⟨2025, 11, 20, 10, 5, 0⟩) = true) ∧
    (∀ f, f ∈ relevantFiles ["sensor_20251119_233000.json"]
          ⟨2025, 11, 20, 10, 1, 0⟩ ⟨2025, 11, 20, 10, 5, 0⟩ ↔
      f ∈ ["sensor_20251119_233000.json"] ∧ nameMatches f = true ∧
        ∃ d, fileDay f = some d ∧
          dLe (searchStartDate ⟨2025, 11, 20, 10, 1, 0⟩) d = true ∧
          dLe d (DateTime.date ⟨2025, 11, 20, 10, 5, 0⟩) = true) :=
  C3_candidate_window ["sensor_20251119_233000.json"]
    ⟨2025, 11, 20, 10, 1, 0⟩ ⟨2025, 11, 20, 10, 5, 0⟩
    ⟨2025, 11, 19, 23, 30, 0⟩ (by decide)

/-! ### Query tolerance of corrupt segments -/

theorem mem_combinedData {dir : List (String × FileContent)} {s e : DateTime}
    {v : JVal} :
    v ∈ combinedData dir s e ↔
      ∃ g ∈ relevantFiles (dir.map Prod.fst) s e,
        v ∈ (extendOf (lookupFile dir g)).getD [] := by
  unfold combinedData
  exact List.mem_flatMap

theorem lookupFile_mem {dir : List (String × FileContent)} {g : String}
    (h : g ∈ dir.map Prod.fst) : (g, lookupFile dir g) ∈ dir := by
  unfold lookupFile
  cases hF : dir.find? (fun p => p.1 = g) with
  | none =>
    exfalso
    obtain ⟨p, hp, hfst⟩ := List.mem_map.mp h
    have hnone := List.find?_eq_none.mp hF p hp
    simp only [decide_eq_true_eq] at hnone
    exact hnone hfst
  | some p =>
    have hmem := List.mem_of_find?_eq_some hF
    have hfst : p.1 = g := by
      have := List.find?_some hF
      simpa using this
    rw [← hfst]
    exact (Prod.mk.eta) ▸ hmem

theorem lookupFile_eq_of_nodup {dir : List (String × FileContent)} {f : String}
    {c : FileContent} (hnd : (dir.map Prod.fst).Nodup) (h : (f, c) ∈ dir) :
    lookupFile dir f = c := by
  induction dir with
  | nil => cases h
  | cons p rest ih =>
    rw [List.map_cons] at hnd
    obtain ⟨hhead, htail⟩ := List.nodup_cons.mp hnd
    rcases List.mem_cons.mp h with rfl | h2
    · unfold lookupFile
      rw [List.find?_cons_of_pos _ (by simp)]
    · have hne : p.1 ≠ f := by
        intro hEq
        exact hhead (hEq ▸ List.mem_map.mpr ⟨(f, c), h2, rfl⟩)
      unfold lookupFile
      rw [List.find?_cons_of_neg _ (by simpa using hne)]
      exact ih htail h2

/-- C6: a candidate segment file that is unreadable or fails to parse is
skipped with a logged warning; provided every other entry the directory
holds is subscriptable (the shape every collector-written record has), the
query still succeeds and returns the in-range readings of every readable
candidate segment. -/
theorem C6_corrupt_candidate_skipped
    (dir : List (String × FileContent)) (s e : DateTime) (f : String)
    (hnd : (dir.map Prod.fst).Nodup)
    (hf : (f, FileContent.unreadable) ∈ dir)
    (hcand : isCandidate s e f = true)
    (hok : ∀ g c, (g, c) ∈ dir → ∀ v ∈ (extendOf c).getD [],
      ∃ r, entryTs v = .ok r) :
    ∃ out logs, load_data dir s e = (.ok out, logs) ∧
      LogEv.readError f ∈ logs ∧
      ∀ g c v dt, (g, c) ∈ dir → isCandidate s e g = true →
        v ∈ (extendOf c).getD [] → entryTs v = .ok (some dt) →
        (dtLe s dt && dtLe dt e) = true → v ∈ out := by
  have hfname : f ∈ dir.map Prod.fst := List.mem_map.mpr ⟨(f, .unreadable), hf, rfl⟩
  have hcomb_ok : ∀ v ∈ combinedData dir s e, ∃ r, entryTs v = .ok r := by
    intro v hv
    obtain ⟨g, hg, hvg⟩ := mem_combinedData.mp hv
    have hgname : g ∈ dir.map Prod.fst := (mem_relevantFiles.mp hg).1
    exact hok g (lookupFile dir g) (lookupFile_mem hgname) v hvg
  obtain ⟨⟨o, lg⟩, hTF⟩ := tsFilter_ok hcomb_ok
  refine ⟨sortByTs o,
    skipNameLogs (dir.map Prod.fst) ++ readErrorLogs dir s e ++ lg, ?_, ?_, ?_⟩
  · unfold load_data
    rw [hTF]
  · have hrel : f ∈ relevantFiles (dir.map Prod.fst) s e := by
      rw [mem_relevantFiles, ← isCandidate_iff]
      exact ⟨hfname, hcand⟩
    have hlf : lookupFile dir f = .unreadable := lookupFile_eq_of_nodup hnd hf
    have hre : LogEv.readError f ∈ readErrorLogs dir s e := by
      unfold readErrorLogs
      refine List.mem_map.mpr ⟨f, ?_, rfl⟩
      rw [List.mem_filter]
      refine ⟨hrel, ?_⟩
      rw [hlf]
      rfl
    exact List.mem_append.mpr (Or.inl (List.mem_append.mpr (Or.inr hre)))
  · intro g c v dt hgc hgcand hvc hts hin
    have hgname : g ∈ dir.map Prod.fst := List.mem_map.mpr ⟨(g, c), hgc, rfl⟩
    have hlg : lookupFile dir g = c := lookupFile_eq_of_nodup hnd hgc
    have hgrel : g ∈ relevantFiles (dir.map Prod.fst) s e := by
      rw [mem_relevantFiles, ← isCandidate_iff]
      exact ⟨hgname, hgcand⟩
    have hvcomb : v ∈ combinedData dir s e :=
      mem_combinedData.mpr ⟨g, hgrel, by rw [hlg]; exact hvc⟩
    exact mem_stableSort.mpr (tsFilter_complete hTF hvcomb hts hin)

/-- Witness for C6: one good segment plus one unreadable candidate; the
query succeeds, logs the bad file, and still returns the good in-range
reading. -/
theorem C6_witness :
    ∃ out logs,
      load_data
          [("sensor_20251120_090000.json", FileContent.jlist
             [.obj [("ts", .str "2025-11-20T10:02:00Z"), ("temperature_c", .num 21)]]),
           ("sensor_20251120_110000.json", FileContent.unreadable)]
          ⟨2025, 11, 20, 10, 1, 0⟩ ⟨2025, 11, 20, 12, 0, 0⟩ = (.ok out, logs) ∧
        LogEv.readError "sensor_20251120_110000.json" ∈ logs ∧
        ∀ g c v dt,
          (g, c) ∈ [("sensor_20251120_090000.json", FileContent.jlist
              [.obj [("ts", .str "2025-11-20T10:02:00Z"), ("temperature_c", .num 21)]]),
            ("sensor_20251120_110000.json", FileContent.unreadable)] →
          isCandidate ⟨2025, 11, 20, 10, 1, 0⟩ ⟨2025, 11, 20, 12, 0, 0⟩ g = true →
          v ∈ (extendOf c).getD [] → entryTs v = .ok (some dt) →
          (dtLe ⟨2025, 11, 20, 10, 1, 0⟩ dt && dtLe dt ⟨2025, 11, 20, 12, 0, 0⟩) = true →
          v ∈ out :=
  C6_corrupt_candidate_skipped _ _ _ "sensor_20251120_110000.json"
    (by decide) (by decide) (by decide)
    (by
      intro g c hgc v hv
      fin_cases hgc
      · fin_cases hv
        exact ⟨some ⟨2025, 11, 20, 10, 2, 0⟩, by rfl⟩
      · cases hv)

/-! ### Round-trip of the written timestamp format -/

/-- The canonical timestamp string the collector writes parses back to the
same instant. -/
theorem parseTs_formatTs {d : DateTime} (hv : d.Valid) :
    parseTs (formatTs d) = some d := by
  have hv2 := hv
  obtain ⟨v1, v2, v3, v4, v5, v6, v7, v8, v9⟩ := hv2
  have hd31 : d.day ≤ 31 := le_trans v6 (daysInMonth_le _ _)
  rw [parseTs]
  have hfmt : (formatTs d).data
      = pad2 (d.year / 100) ++ (pad2 (d.year % 100) ++ ('-' :: (pad2 d.month ++ ('-' :: (pad2 d.day ++ ('T' :: (pad2 d.hour ++ (':' :: (pad2 d.minute ++ (':' :: (pad2 d.second ++ ['Z']))))))))))) := rfl
  rw [hfmt]
  rw [pD2_pad2 (show d.year / 100 ≤ 99 by omega)]
  simp only [bind, Option.some_bind]
  rw [pD2_pad2 (show d.year % 100 ≤ 99 by omega)]
  simp only [bind, Option.some_bind]
  rw [pSep_self]
  simp only [bind, Option.some_bind]
  rw [pD12_pad2 (show d.month ≤ 99 by omega)]
  simp only [bind, Option.some_bind]
  rw [pSep_self]
  simp only [bind, Option.some_bind]
  rw [pDay_pad2 (show d.day ≤ 99 by omega)]
  simp only [bind, Option.some_bind]
  rw [pSep2_self]
  simp only [bind, Option.some_bind]
  rw [pD12_pad2 (show d.hour ≤ 99 by omega)]
  simp only [bind, Option.some_bind]
  rw [pSep_self]
  simp only [bind, Option.some_bind]
  rw [pD12_pad2 (show d.minute ≤ 99 by omega)]
  simp only [bind, Option.some_bind]
  rw [pSep_self]
  simp only [bind, Option.some_bind]
  rw [pD12_pad2 (show d.second ≤ 99 by omega)]
  simp only [bind, Option.some_bind]
  rw [pSep2_self]
  simp only [bind, Option.some_bind]
  have hy : 100 * (d.year / 100) + d.year % 100 = d.year := by omega
  rw [hy]
  rw [if_pos hv]

/-- Comparing two canonical timestamp strings lexicographically is comparing
the stamped instants chronologically. -/
theorem lexLt_formatTs {d1 d2 : DateTime} (h1 : d1.Valid) (h2 : d2.Valid) :
    lexLt (formatTs d1).data (formatTs d2).data = decide (d1.key < d2.key) := by
  obtain ⟨a1, a2, a3, a4, a5, a6, a7, a8, a9⟩ := h1
  obtain ⟨b1, b2, b3, b4, b5, b6, b7, b8, b9⟩ := h2
  have hda : d1.day ≤ 31 := le_trans a6 (daysInMonth_le _ _)
  have hdb : d2.day ≤ 31 := le_trans b6 (daysInMonth_le _ _)
  have hk1 : d1.key = ((((d1.year * 100 + d1.month) * 100 + d1.day) * 100
      + d1.hour) * 100 + d1.minute) * 100 + d1.second := rfl
  have hk2 : d2.key = ((((d2.year * 100 + d2.month) * 100 + d2.day) * 100
      + d2.hour) * 100 + d2.minute) * 100 + d2.second := rfl
  have hfmt1 : (formatTs d1).data =
      Nat.digitChar (d1.year / 100 / 10 % 10) :: Nat.digitChar (d1.year / 100 % 10) ::
      Nat.digitChar (d1.year % 100 / 10 % 10) :: Nat.digitChar (d1.year % 100 % 10) ::
      '-' :: Nat.digitChar (d1.month / 10 % 10) :: Nat.digitChar (d1.month % 10) ::
      '-' :: Nat.digitChar (d1.day / 10 % 10) :: Nat.digitChar (d1.day % 10) ::
      'T' :: Nat.digitChar (d1.hour / 10 % 10) :: Nat.digitChar (d1.hour % 10) ::
      ':' :: Nat.digitChar (d1.minute / 10 % 10) :: Nat.digitChar (d1.minute % 10) ::
      ':' :: Nat.digitChar (d1.second / 10 % 10) :: Nat.digitChar (d1.second % 10) ::
      'Z' :: [] := rfl
  have hfmt2 : (formatTs d2).data =
      Nat.digitChar (d2.year / 100 / 10 % 10) :: Nat.digitChar (d2.year / 100 % 10) ::
      Nat.digitChar (d2.year % 100 / 10 % 10) :: Nat.digitChar (d2.year % 100 % 10) ::
      '-' :: Nat.digitChar (d2.month / 10 % 10) :: Nat.digitChar (d2.month % 10) ::
      '-' :: Nat.digitChar (d2.day / 10 % 10) :: Nat.digitChar (d2.day % 10) ::
      'T' :: Nat.digitChar (d2.hour / 10 % 10) :: Nat.digitChar (d2.hour % 10) ::
      ':' :: Nat.digitChar (d2.minute / 10 % 10) :: Nat.digitChar (d2.minute % 10) ::
      ':' :: Nat.digitChar (d2.second / 10 % 10) :: Nat.digitChar (d2.second % 10) ::
      'Z' :: [] := rfl
  rw [hfmt1, hfmt2]
  rw [lexLt_d2 (p2v_pad2 (show d1.year / 100 ≤ 99 by omega))
    (p2v_pad2 (show d2.year / 100 ≤ 99 by omega))]
  refine ifchain (fun h => by omega) (fun h => by omega) ?_
  intro e1
  rw [lexLt_d2 (p2v_pad2 (show d1.year % 100 ≤ 99 by omega))
    (p2v_pad2 (show d2.year % 100 ≤ 99 by omega))]
  refine ifchain (fun h => by omega) (fun h => by omega) ?_
  intro e2
  rw [lexLt_cons_same]
  rw [lexLt_d2 (p2v_pad2 (show d1.month ≤ 99 by omega))
    (p2v_pad2 (show d2.month ≤ 99 by omega))]
  refine ifchain (fun h => by omega) (fun h => by omega) ?_
  intro e3
  rw [lexLt_cons_same]
  rw [lexLt_d2 (p2v_pad2 (show d1.day ≤ 99 by omega))
    (p2v_pad2 (show d2.day ≤ 99 by omega))]
  refine ifchain (fun h => by omega) (fun h => by omega) ?_
  intro e4
  rw [lexLt_cons_same]
  rw [lexLt_d2 (p2v_pad2 (show d1.hour ≤ 99 by omega))
    (p2v_pad2 (show d2.hour ≤ 99 by omega))]
  refine ifchain (fun h => by omega) (fun h => by omega) ?_
  intro e5
  rw [lexLt_cons_same]
  rw [lexLt_d2 (p2v_pad2 (show d1.minute ≤ 99 by omega))
    (p2v_pad2 (show d2.minute ≤ 99 by omega))]
  refine ifchain (fun h => by omega) (fun h => by omega) ?_
  intro e6
  rw [lexLt_cons_same]
  rw [lexLt_d2 (p2v_pad2 (show d1.second ≤ 99 by omega))
    (p2v_pad2 (show d2.second ≤ 99 by omega))]
  refine ifchain (fun h => by omega) (fun h => by omega) ?_
  intro e7
  rw [lexLt_cons_same]
  show false = decide (d1.key < d2.key)
  rw [decide_eq_false (show ¬ d1.key < d2.key by omega)]

/-- Python string `<=` on two canonical timestamp strings is chronological
`<=` on the stamped instants. -/
theorem strLe_formatTs {d1 d2 : DateTime} (h1 : d1.Valid) (h2 : d2.Valid) :
    strLe (formatTs d1) (formatTs d2) = decide (d1.key ≤ d2.key) := by
  unfold strLe
  rw [lexLt_formatTs h2 h1]
  rcases Nat.lt_or_ge d2.key d1.key with h | h
  · rw [decide_eq_true h, decide_eq_false (show ¬ d1.key ≤ d2.key by omega)]
    rfl
  · rw [decide_eq_false (show ¬ d2.key < d1.key by omega),
      decide_eq_true (show d1.key ≤ d2.key by omega)]
    rfl

/-- C1 counterexample: CPython strptime accepts non-zero-padded timestamps,
so `load_data` keeps the record "2025-11-20T9:02:00Z"; the raw-string sort
then places it after "2025-11-20T10:02:00Z" ("1" < "9" code-point-wise),
and the returned list is out of chronological order. -/
theorem C1_counterexample :
    (load_data
        [("sensor_20251120_080000.json", FileContent.jlist
          [.obj [("ts", .str "2025-11-20T9:02:00Z")],
           .obj [("ts", .str "2025-11-20T10:02:00Z")]])]
        ⟨2025, 11, 20, 0, 0, 0⟩ ⟨2025, 11, 20, 23, 0, 0⟩).1
      = .ok [.obj [("ts", .str "2025-11-20T10:02:00Z")],
             .obj [("ts", .str "2025-11-20T9:02:00Z")]] ∧
    tsOf (.obj [("ts", .str "2025-11-20T10:02:00Z")]) = some ⟨2025, 11, 20, 10, 2, 0⟩ ∧
    tsOf (.obj [("ts", .str "2025-11-20T9:02:00Z")]) = some ⟨2025, 11, 20, 9, 2, 0⟩ ∧
    ¬ ((⟨2025, 11, 20, 10, 2, 0⟩ : DateTime).key ≤ (⟨2025, 11, 20, 9, 2, 0⟩ : DateTime).key) :=
  ⟨by rfl, by rfl, by rfl, by decide⟩

/-- C1 (amended): every record a successful query returns carries a parsed
timestamp inside the closed window, and the result is sorted ascending by
the raw `ts` string; that order is chronological whenever every returned
`ts` string is in the canonical zero-padded format the collector writes,
but not in general (see the counterexample). -/
theorem C1_query_window_and_sort
    (dir : List (String × FileContent)) (s e : DateTime) (out : List JVal)
    (h : (load_data dir s e).1 = .ok out) :
    (∀ v ∈ out, ∃ dt, tsOf v = some dt ∧ dtLe s dt = true ∧ dtLe dt e = true) ∧
    out.Pairwise (fun a b => entryLe a b = true) ∧
    ((∀ v ∈ out, ∃ d, d.Valid ∧ tsKeyStr v = formatTs d) →
      out.Pairwise (fun a b => keyOf a ≤ keyOf b)) := by
  obtain ⟨o, l4, hTF, hout⟩ := load_data_fst_ok h
  have hmemo : ∀ v ∈ out, v ∈ o := by
    intro v hv
    rw [hout] at hv
    exact mem_stableSort.mp hv
  have hwin : ∀ v ∈ out, ∃ dt, entryTs v = .ok (some dt) ∧
      (dtLe s dt && dtLe dt e) = true := by
    intro v hv
    exact (tsFilter_mem hTF v (hmemo v hv)).2
  have hsorted : out.Pairwise (fun a b => entryLe a b = true) := by
    rw [hout]
    exact sorted_stableSort entryLe_trans entryLe_total o
  refine ⟨?_, hsorted, ?_⟩
  · intro v hv
    obtain ⟨dt, hET, hin⟩ := hwin v hv
    simp only [Bool.and_eq_true] at hin
    exact ⟨dt, tsOf_eq_some hET, hin.1, hin.2⟩
  · intro hcanon
    refine List.Pairwise.imp_of_mem ?_ hsorted
    intro a b ha hb hle
    obtain ⟨da, hva, hsa⟩ := hcanon a ha
    obtain ⟨db, hvb, hsb⟩ := hcanon b hb
    obtain ⟨dta, heta, hina⟩ := hwin a ha
    obtain ⟨dtb, hetb, hinb⟩ := hwin b hb
    have hpa : parseTs (tsKeyStr a) = some dta := entryTs_tsKeyStr heta
    have hpb : parseTs (tsKeyStr b) = some dtb := entryTs_tsKeyStr hetb
    rw [hsa, parseTs_formatTs hva] at hpa
    rw [hsb, parseTs_formatTs hvb] at hpb
    injection hpa with hpa
    injection hpb with hpb
    rw [keyOf_eq heta, keyOf_eq hetb, ← hpa, ← hpb]
    unfold entryLe at hle
    rw [hsa, hsb, strLe_formatTs hva hvb] at hle
    exact of_decide_eq_true hle

/-- Witness for C1: one canonical segment with two canonical records,
returned in window, string-sorted, and (being canonical) chronological. -/
theorem C1_witness :
    (∀ v ∈ [JVal.obj [("ts", FieldVal.str "2025-11-20T09:02:00Z")],
            JVal.obj [("ts", FieldVal.str "2025-11-20T10:02:00Z")]],
        ∃ dt, tsOf v = some dt ∧ dtLe ⟨2025, 11, 20, 0, 0, 0⟩ dt = true ∧
          dtLe dt ⟨2025, 11, 20, 23, 0, 0⟩ = true) ∧
    List.Pairwise (fun a b => entryLe a b = true)
      [JVal.obj [("ts", FieldVal.str "2025-11-20T09:02:00Z")],
       JVal.obj [("ts", FieldVal.str "2025-11-20T10:02:00Z")]] ∧
    ((∀ v ∈ [JVal.obj [("ts", FieldVal.str "2025-11-20T09:02:00Z")],
             JVal.obj [("ts", FieldVal.str "2025-11-20T10:02:00Z")]],
        ∃ d, d.Valid ∧ tsKeyStr v = formatTs d) →
      List.Pairwise (fun a b => keyOf a ≤ keyOf b)
        [JVal.obj [("ts", FieldVal.str "2025-11-20T09:02:00Z")],
         JVal.obj [("ts", FieldVal.str "2025-11-20T10:02:00Z")]]) :=
  C1_query_window_and_sort
    [("sensor_20251120_080000.json", FileContent.jlist
      [.obj [("ts", .str "2025-11-20T10:02:00Z")],
       .obj [("ts", .str "2025-11-20T09:02:00Z")]])]
    ⟨2025, 11, 20, 0, 0, 0⟩ ⟨2025, 11, 20, 23, 0, 0⟩
    [JVal.obj [("ts", FieldVal.str "2025-11-20T09:02:00Z")],
     JVal.obj [("ts", FieldVal.str "2025-11-20T10:02:00Z")]]
    (by rfl)

theorem lookupField_head (k : String) (fv : FieldVal) (rest : List (String × FieldVal)) :
    lookupField ((k, fv) :: rest) k = some fv := by
  unfold lookupField
  rw [List.find?_cons_of_pos _ (by simp)]
  rfl

theorem entryTs_obj_ts (s : String) (rest : List (String × FieldVal)) :
    entryTs (.obj (("ts", .str s) :: rest)) = .ok (parseTs s) := by
  simp only [entryTs]
  rw [lookupField_head]

/-- The record `read_sensor_values` builds carries the stamped instant. -/
theorem entryTs_read_sensor_values {now : DateTime} {sensor : Sensor}
    (hv : now.Valid) :
    entryTs (read_sensor_values now sensor) = .ok (some now) := by
  unfold read_sensor_values
  rw [entryTs_obj_ts, parseTs_formatTs hv]

/-- C7: a reading acquired with an absent optional sensor field — whether
temperature, humidity, or battery — keeps every absent field as the absent
marker through the appended payload, the stored segment list, and the query
result: each absent field is stored as JSON null, never the number zero,
and the record the query returns is the appended record itself, unchanged. -/
theorem C7_absent_field_roundtrip
    (now : DateTime) (sensor : Sensor) (prior : List JVal)
    (dir : List (String × FileContent)) (s e : DateTime) (fname : String)
    (hv : now.Valid)
    (hnd : (dir.map Prod.fst).Nodup)
    (hmem : (fname, FileContent.jlist (prior ++ [read_sensor_values now sensor])) ∈ dir)
    (hcand : isCandidate s e fname = true)
    (hin : (dtLe s now && dtLe now e) = true)
    (hok : ∀ g c, (g, c) ∈ dir → ∀ v ∈ (extendOf c).getD [],
      ∃ r, entryTs v = .ok r) :
    (append_reading (.content prior) (read_sensor_values now sensor)
        = .ok (prior ++ [read_sensor_values now sensor], [])) ∧
    (∃ fields, read_sensor_values now sensor = .obj fields ∧
        (sensor.temp = none →
          lookupField fields "temperature_c" = some .null ∧
          ∀ q : Rat, lookupField fields "temperature_c" ≠ some (.num q)) ∧
        (sensor.hum = none →
          lookupField fields "humidity_rh" = some .null ∧
          ∀ q : Rat, lookupField fields "humidity_rh" ≠ some (.num q)) ∧
        (sensor.batt = none →
          lookupField fields "battery_percentage" = some .null ∧
          ∀ q : Rat, lookupField fields "battery_percentage" ≠ some (.num q))) ∧
    ∃ out logs, load_data dir s e = (.ok out, logs) ∧
      read_sensor_values now sensor ∈ out := by
  refine ⟨rfl, ?_, ?_⟩
  · refine ⟨[("ts", .str (formatTs now)), ("temperature_c", optField sensor.temp),
      ("humidity_rh", optField sensor.hum),
      ("battery_percentage", optField sensor.batt)], rfl, ?_, ?_, ?_⟩
    · intro h
      have hl : lookupField [("ts", FieldVal.str (formatTs now)),
          ("temperature_c", optField sensor.temp),
          ("humidity_rh", optField sensor.hum),
          ("battery_percentage", optField sensor.batt)] "temperature_c"
          = some (optField sensor.temp) := rfl
      rw [hl, h]
      exact ⟨rfl, fun q hq => by simp [optField] at hq⟩
    · intro h
      have hl : lookupField [("ts", FieldVal.str (formatTs now)),
          ("temperature_c", optField sensor.temp),
          ("humidity_rh", optField sensor.hum),
          ("battery_percentage", optField sensor.batt)] "humidity_rh"
          = some (optField sensor.hum) := rfl
      rw [hl, h]
      exact ⟨rfl, fun q hq => by simp [optField] at hq⟩
    · intro h
      have hl : lookupField [("ts", FieldVal.str (formatTs now)),
          ("temperature_c", optField sensor.temp),
          ("humidity_rh", optField sensor.hum),
          ("battery_percentage", optField sensor.batt)] "battery_percentage"
          = some (optField sensor.batt) := rfl
      rw [hl, h]
      exact ⟨rfl, fun q hq => by simp [optField] at hq⟩
  · have hcomb_ok : ∀ v ∈ combinedData dir s e, ∃ r, entryTs v = .ok r := by
      intro v hvc
      obtain ⟨g, hg, hvg⟩ := mem_combinedData.mp hvc
      have hgname : g ∈ dir.map Prod.fst := (mem_relevantFiles.mp hg).1
      exact hok g (lookupFile dir g) (lookupFile_mem hgname) v hvg
    obtain ⟨⟨o, lg⟩, hTF⟩ := tsFilter_ok hcomb_ok
    refine ⟨sortByTs o,
      skipNameLogs (dir.map Prod.fst) ++ readErrorLogs dir s e ++ lg, ?_, ?_⟩
    · unfold load_data
      rw [hTF]
    · have hfname : fname ∈ dir.map Prod.fst :=
        List.mem_map.mpr ⟨_, hmem, rfl⟩
      have hrel : fname ∈ relevantFiles (dir.map Prod.fst) s e := by
        rw [mem_relevantFiles, ← isCandidate_iff]
        exact ⟨hfname, hcand⟩
      have hlf := lookupFile_eq_of_nodup hnd hmem
      have hvcomb : read_sensor_values now sensor ∈ combinedData dir s e := by
        refine mem_combinedData.mpr ⟨fname, hrel, ?_⟩
        rw [hlf]
        exact List.mem_append.mpr (Or.inr (List.mem_singleton.mpr rfl))
      exact mem_stableSort.mpr
        (tsFilter_complete hTF hvcomb (entryTs_read_sensor_values hv) hin)

/-- Witness for C7: battery absent, temperature and humidity present. -/
theorem C7_witness :
    (append_reading (.content [])
        (read_sensor_values ⟨2025, 11, 20, 10, 2, 0⟩ ⟨some 21, some 45, none⟩)
        = .ok ([] ++ [read_sensor_values ⟨2025, 11, 20, 10, 2, 0⟩
            ⟨some 21, some 45, none⟩], [])) ∧
    (∃ fields, read_sensor_values ⟨2025, 11, 20, 10, 2, 0⟩ ⟨some 21, some 45, none⟩
          = .obj fields ∧
        ((⟨some 21, some 45, none⟩ : Sensor).temp = none →
          lookupField fields "temperature_c" = some .null ∧
          ∀ q : Rat, lookupField fields "temperature_c" ≠ some (.num q)) ∧
        ((⟨some 21, some 45, none⟩ : Sensor).hum = none →
          lookupField fields "humidity_rh" = some .null ∧
          ∀ q : Rat, lookupField fields "humidity_rh" ≠ some (.num q)) ∧
        ((⟨some 21, some 45, none⟩ : Sensor).batt = none →
          lookupField fields "battery_percentage" = some .null ∧
          ∀ q : Rat, lookupField fields "battery_percentage" ≠ some (.num q))) ∧
    ∃ out logs,
      load_data
          [("sensor_20251120_100000.json", FileContent.jlist
            ([] ++ [read_sensor_values ⟨2025, 11, 20, 10, 2, 0⟩ ⟨some 21, some 45, none⟩]))]
          ⟨2025, 11, 20, 10, 1, 0⟩ ⟨2025, 11, 20, 10, 5, 0⟩ = (.ok out, logs) ∧
        read_sensor_values ⟨2025, 11, 20, 10, 2, 0⟩ ⟨some 21, some 45, none⟩ ∈ out :=
  C7_absent_field_roundtrip ⟨2025, 11, 20, 10, 2, 0⟩ ⟨some 21, some 45, none⟩ []
    _ ⟨2025, 11, 20, 10, 1, 0⟩ ⟨2025, 11, 20, 10, 5, 0⟩ "sensor_20251120_100000.json"
    (by decide) (by decide) (List.mem_singleton.mpr rfl) (by decide) (by decide)
    (by
      intro g c hgc v hvv
      fin_cases hgc
      fin_cases hvv
      exact ⟨some ⟨2025, 11, 20, 10, 2, 0⟩, by rfl⟩)

/-! ### The range parameter, unparseable timestamps, and sensor reads -/

/-- C8 counterexample: a request whose `range` parameter is "2h" — outside
the enumerated set — is not rejected: it is served, and the returned data
comes from the substituted 24-hour window (the returned reading is about 23
hours old, far outside any 2-hour window). -/
theorem C8_counterexample :
    get_readings
        [("sensor_20251120_100000.json", FileContent.jlist
          [.obj [("ts", .str "2025-11-20T10:02:00Z")]])]
        (some "2h") none ⟨2025, 11, 21, 9, 0, 0⟩ ⟨2025, 11, 21⟩
      = .ok [.obj [("ts", .str "2025-11-20T10:02:00Z")]] := by rfl

/-- C8 (amended): a request whose `range` parameter is outside the
enumerated set (6h/12h/24h/3d/7d/1m) is not rejected; it is served exactly
as if the range were "24h" (the final else of the dispatch substitutes a
24-hour window). -/
theorem C8_invalid_range_defaults
    (dir : List (String × FileContent)) (r : String) (dateP : Option String)
    (nowUtc : DateTime) (today : Date)
    (hr : r ∉ (["6h", "12h", "24h", "3d", "7d", "1m"] : List String)) :
    get_readings dir (some r) dateP nowUtc today
      = get_readings dir (some "24h") dateP nowUtc today := by
  have hw : rangeWindow r = rangeWindow "24h" := by
    unfold rangeWindow
    rw [if_neg (show ¬ r = "6h" from fun h => hr (by rw [h]; decide)),
      if_neg (show ¬ r = "12h" from fun h => hr (by rw [h]; decide)),
      if_neg (show ¬ r = "24h" from fun h => hr (by rw [h]; decide)),
      if_neg (show ¬ r = "3d" from fun h => hr (by rw [h]; decide)),
      if_neg (show ¬ r = "7d" from fun h => hr (by rw [h]; decide)),
      if_neg (show ¬ r = "1m" from fun h => hr (by rw [h]; decide))]
    decide
  unfold get_readings
  rw [show (some r).getD "24h" = r from rfl,
    show (some "24h").getD "24h" = "24h" from rfl, hw]

/-- Witness for C8 at the concrete invalid range "2h". -/
theorem C8_witness :
    get_readings
        [("sensor_20251120_100000.json", FileContent.jlist
          [.obj [("ts", .str "2025-11-20T10:02:00Z")]])]
        (some "2h") none ⟨2025, 11, 21, 9, 0, 0⟩ ⟨2025, 11, 21⟩
      = get_readings
          [("sensor_20251120_100000.json", FileContent.jlist
            [.obj [("ts", .str "2025-11-20T10:02:00Z")]])]
          (some "24h") none ⟨2025, 11, 21, 9, 0, 0⟩ ⟨2025, 11, 21⟩ :=
  C8_invalid_range_defaults _ "2h" none ⟨2025, 11, 21, 9, 0, 0⟩ ⟨2025, 11, 21⟩
    (by decide)

/-- C9 counterexample: a stored record with no `ts` field is not dropped:
the uncaught KeyError makes the whole query fail. -/
theorem C9_counterexample :
    (load_data
        [("sensor_20251120_100000.json", FileContent.jlist
          [.obj [("temperature_c", .num 21)]])]
        ⟨2025, 11, 20, 0, 0, 0⟩ ⟨2025, 11, 20, 23, 0, 0⟩).1
      = .error .keyError := by rfl

/-- C9 (amended): a stored record whose `ts` field is present as a string
but fails to parse is dropped and logged while the query completes and
returns the remaining records; only this ValueError case is tolerated — a
record with a missing or non-string `ts` raises an uncaught exception
instead (see the counterexample). -/
theorem C9_bad_string_ts_dropped
    (dir : List (String × FileContent)) (s e : DateTime)
    (hsub : ∀ v ∈ combinedData dir s e, ∃ r, entryTs v = .ok r) :
    ∃ out logs, load_data dir s e = (.ok out, logs) ∧
      ∀ v ∈ combinedData dir s e, entryTs v = .ok none →
        v ∉ out ∧ LogEv.badTs ∈ logs := by
  obtain ⟨⟨o, lg⟩, hTF⟩ := tsFilter_ok hsub
  refine ⟨sortByTs o,
    skipNameLogs (dir.map Prod.fst) ++ readErrorLogs dir s e ++ lg, ?_, ?_⟩
  · unfold load_data
    rw [hTF]
  · intro v hvc hbad
    constructor
    · intro hvout
      obtain ⟨_, dt, hdt, _⟩ := tsFilter_mem hTF v (mem_stableSort.mp hvout)
      rw [hbad] at hdt
      injection hdt with hdt
      cases hdt
    · exact List.mem_append.mpr (Or.inr (tsFilter_badTs hTF hvc hbad))

/-- Witness for C9 at a segment holding one good record and one record with
a present but unparseable timestamp string. -/
theorem C9_witness :
    ∃ out logs,
      load_data
          [("sensor_20251120_100000.json", FileContent.jlist
            [.obj [("ts", .str "2025-11-20T10:02:00Z")],
             .obj [("ts", .str "not-a-timestamp")]])]
          ⟨2025, 11, 20, 0, 0, 0⟩ ⟨2025, 11, 20, 23, 0, 0⟩ = (.ok out, logs) ∧
        ∀ v ∈ combinedData
            [("sensor_20251120_100000.json", FileContent.jlist
              [.obj [("ts", .str "2025-11-20T10:02:00Z")],
               .obj [("ts", .str "not-a-timestamp")]])]
            ⟨2025, 11, 20, 0, 0, 0⟩ ⟨2025, 11, 20, 23, 0, 0⟩,
          entryTs v = .ok none → v ∉ out ∧ LogEv.badTs ∈ logs :=
  C9_bad_string_ts_dropped _ ⟨2025, 11, 20, 0, 0, 0⟩ ⟨2025, 11, 20, 23, 0, 0⟩
    (by
      intro v hv
      fin_cases hv
      · exact ⟨some ⟨2025, 11, 20, 10, 2, 0⟩, by rfl⟩
      · exact ⟨none, by rfl⟩)

/-- C10: `read_sensor_values` is total over every sensor handle (each
attribute read that raises is absorbed into the absent marker) and returns
a record with exactly the four keys; the `ts` value is the canonical
second-precision ISO-8601 UTC string ending in Z, parsing back to the
sampled instant, and every numeric field is either a number or the absent
marker. -/
theorem C10_read_sensor_values_shape (now : DateTime) (sensor : Sensor)
    (hv : now.Valid) :
    read_sensor_values now sensor
        = .obj [("ts", .str (formatTs now)),
            ("temperature_c", optField sensor.temp),
            ("humidity_rh", optField sensor.hum),
            ("battery_percentage", optField sensor.batt)] ∧
      parseTs (formatTs now) = some now ∧
      (formatTs now).data.getLast? = some 'Z' ∧
      ∀ o : Option Rat, optField o = .null ∨ ∃ q, optField o = .num q := by
  refine ⟨rfl, parseTs_formatTs hv, ?_, ?_⟩
  · show ((pad4 now.year ++ '-' :: pad2 now.month ++ '-' :: pad2 now.day ++
      'T' :: pad2 now.hour ++ ':' :: pad2 now.minute ++ ':' :: pad2 now.second)
        ++ ['Z']).getLast? = some 'Z'
    rw [List.getLast?_concat]
  · intro o
    cases o with
    | none => exact Or.inl rfl
    | some q => exact Or.inr ⟨q, rfl⟩

/-- Witness for C10 at a sensor handle whose attribute reads all fail. -/
theorem C10_witness :
    read_sensor_values ⟨2025, 11, 20, 12, 0, 0⟩ ⟨none, none, none⟩
        = .obj [("ts", .str (formatTs ⟨2025, 11, 20, 12, 0, 0⟩)),
            ("temperature_c", optField none),
            ("humidity_rh", optField none),
            ("battery_percentage", optField none)] ∧
      parseTs (formatTs ⟨2025, 11, 20, 12, 0, 0⟩) = some ⟨2025, 11, 20, 12, 0, 0⟩ ∧
      (formatTs ⟨2025, 11, 20, 12, 0, 0⟩).data.getLast? = some 'Z' ∧
      ∀ o : Option Rat, optField o = .null ∨ ∃ q, optField o = .num q :=
  C10_read_sensor_values_shape ⟨2025, 11, 20, 12, 0, 0⟩ ⟨none, none, none⟩ (by decide)

end ICM
